import Mathlib

/-!
Gate: visitor check-in / check-out.

A shallow embedding of the domain logic of the two clients of the gate kiosk,

* `src/gate/App.js` (the mobile client, namespace `Gate.Mobile`), and
* `src/gate/gateman-app.jsx` (the web client, namespace `Gate.Web`),

together with the document collection `visitors` they read and write.

Modelling conventions.

* A JavaScript string is the list of its characters (`JSString`); `length` counts
  UTF-16 code units as JavaScript does (`jsLength`).
* A regular-expression literal `/^ ... $/` is translated to a Mathlib
  `RegularExpression Char`; `re.test str` is `re.rmatch str`: with both anchors and
  no multiline flag, `test` succeeds exactly when the whole string is in the language.
* The collection is the list of its documents in document-name order, which is the
  order in which a query without `orderBy` returns them.  Document names are
  abstracted to natural numbers, ordered as the store orders names.
* Calls to the store are taken to succeed; the `catch` branches (a generic alert and
  no write) are outside the model.  The alerts and React state updates are
  represented only by the result value of each handler.
* A number is the rational it denotes, and an arithmetic operation on numbers is rounded
  to the nearest double (`toDouble`); time values of dates are integers of magnitude at
  most 8640000000000000 (`IsDate`).
-/

namespace Gate

open RegularExpression

/-! ## Strings -/

/-- JavaScript string, as the list of its characters. -/
abbrev JSString := List Char

/-- Number of UTF-16 code units of a character. -/
def utf16Units (c : Char) : Nat := if c.toNat < 0x10000 then 1 else 2

/-- The `length` property of a string: its number of UTF-16 code units. -/
def jsLength (s : JSString) : Nat := (s.map utf16Units).sum

/-- The characters `String.prototype.trim` strips: ECMAScript `WhiteSpace` and
`LineTerminator` (TAB, LF, VT, FF, CR, SP, NBSP, U+1680, U+2000..U+200A, U+2028, U+2029,
U+202F, U+205F, U+3000, U+FEFF). -/
def isWhiteSpace (c : Char) : Bool :=
  let n := c.toNat
  (9 ≤ n && n ≤ 13) || n == 0x20 || n == 0xA0 || n == 0x1680 ||
  (0x2000 ≤ n && n ≤ 0x200A) || n == 0x2028 || n == 0x2029 || n == 0x202F ||
  n == 0x205F || n == 0x3000 || n == 0xFEFF

/-- The method `String.prototype.trim`: white space removed from both ends. -/
def trim (s : JSString) : JSString :=
  (s.dropWhile isWhiteSpace).rdropWhile isWhiteSpace

/-- The non-ASCII characters whose upper case (the locale-independent full Unicode
mapping) contains an ASCII character, each with its upper case: U+00DF, U+0131, U+0149,
U+017F, U+01F0, U+1E96..U+1E9A and U+FB00..U+FB06. -/
def specialUpperCase : List (Nat × List Char) :=
  [(0xDF, ['S', 'S']), (0x131, ['I']), (0x149, [Char.ofNat 0x2BC, 'N']), (0x17F, ['S']),
   (0x1F0, ['J', Char.ofNat 0x30C]), (0x1E96, ['H', Char.ofNat 0x331]),
   (0x1E97, ['T', Char.ofNat 0x308]), (0x1E98, ['W', Char.ofNat 0x30A]),
   (0x1E99, ['Y', Char.ofNat 0x30A]), (0x1E9A, ['A', Char.ofNat 0x2BE]),
   (0xFB00, ['F', 'F']), (0xFB01, ['F', 'I']), (0xFB02, ['F', 'L']),
   (0xFB03, ['F', 'F', 'I']), (0xFB04, ['F', 'F', 'L']), (0xFB05, ['S', 'T']),
   (0xFB06, ['S', 'T'])]

/-- Upper case of one character, as used by `String.prototype.toUpperCase`.  The mapping
is exact on ASCII and on the characters of `specialUpperCase`.  Any other character has an
upper case made of non-ASCII characters only, and is left in place to stand for it. -/
def upperChar (c : Char) : List Char :=
  let n := c.toNat
  if 97 ≤ n ∧ n ≤ 122 then [Char.ofNat (n - 32)]
  else
    match specialUpperCase.find? (fun e => e.1 == n) with
    | some e => e.2
    | none => [c]

/-- The method `String.prototype.toUpperCase`. -/
def toUpperCase (s : JSString) : JSString := s.flatMap upperChar

/-! ## Regular expressions -/

/-- A character class: one character out of `cs`. -/
def charClass (cs : List Char) : RegularExpression Char :=
  cs.foldr (fun c r => RegularExpression.char c + r) 0

/-- A literal: the characters of `s` in sequence. -/
def literal (s : List Char) : RegularExpression Char :=
  s.foldr (fun c r => RegularExpression.char c * r) 1

/-- The class `\d`: without the unicode-sets flag, the ten ASCII digits. -/
def digitChars : List Char := "0123456789".toList

/-- The class `[A-Z]` under the `i` flag (and no `u` flag): the ASCII letters of both
cases.  Canonicalisation never folds a non-ASCII character to an ASCII one. -/
def letterCharsIgnoreCase : List Char :=
  "ABCDEFGHIJKLMNOPQRSTUVWXYZabcdefghijklmnopqrstuvwxyz".toList

/-- The literal `/^\d{8}$/`. -/
def idNumberRegex : RegularExpression Char := charClass digitChars ^ 8

/-- The literal `/^(?:254|\+254|0)?([17]\d{8})$/`. -/
def mobileNumberRegex : RegularExpression Char :=
  (literal "254".toList + literal "+254".toList + literal "0".toList + 1) *
    (charClass ['1', '7'] * charClass digitChars ^ 8)

/-- The literal `/^[A-Z]{3}\d{3}[A-Z]$/i`. -/
def carPlateRegex : RegularExpression Char :=
  charClass letterCharsIgnoreCase ^ 3 * charClass digitChars ^ 3 *
    charClass letterCharsIgnoreCase

/-- The call `re.test(str)` for an anchored literal. -/
def test (re : RegularExpression Char) (str : JSString) : Bool := re.rmatch str

/-! ## The collection `visitors` -/

/-- Name of a document, assigned by the store. -/
abbrev DocId := Nat

/-- Server time, in milliseconds since the epoch. -/
abbrev Timestamp := Nat

/-- The field `status`: the strings `'inside'` and `'left'`. -/
inductive Status
  | inside
  | left
  deriving DecidableEq

/-- A document of the collection.  `mobileNumber` is written by the mobile client only
(`none`: the field is absent); `carPlate` and `timeOut` are `none` for `null`. -/
structure VisitRecord where
  id : DocId
  idNumber : JSString
  mobileNumber : Option JSString
  firstName : JSString
  lastName : JSString
  carPlate : Option JSString
  timeIn : Timestamp
  timeOut : Option Timestamp
  status : Status
  createdAt : Timestamp
  deriving DecidableEq

/-- The collection: its documents in document-name order. -/
abbrev Store := List VisitRecord

/-- The query `where('idNumber', '==', idNumber), where('status', '==', 'inside')` run by
`getDocs`: the matching documents, in document-name order. -/
def getDocsInside (idNumber : JSString) (store : Store) : List VisitRecord :=
  store.filter (fun d => decide (d.idNumber = idNumber ∧ d.status = Status.inside))

/-- The call `addDoc`: the store files the new document under its name. -/
def addDoc (d : VisitRecord) (store : Store) : Store :=
  store.orderedInsert (fun a b => a.id ≤ b.id) d

/-- The call `updateDoc(doc(db, 'visitors', id), ...)` with the fields
`timeOut: serverTimestamp(), status: 'left'`: a partial update of the document named
`id`. -/
def updateDoc (id : DocId) (now : Timestamp) (store : Store) : Store :=
  store.map (fun d => if d.id = id then { d with timeOut := some now, status := Status.left }
    else d)

/-- The alert raised by a failed validation. -/
inductive ValidationError
  | invalidId
  | invalidMobile
  | missingName
  | invalidPlate
  deriving DecidableEq

/-- How `handleCheckIn` ends. -/
inductive CheckInResult
  | rejected (e : ValidationError)
  | alreadyInside
  | success
  deriving DecidableEq

/-- How `handleCheckOut` ends. -/
inductive CheckOutResult
  | invalidId
  | notInside
  | success
  deriving DecidableEq

/-- The expression `s || null` on a string: `null` for the empty string. -/
def orNull (s : JSString) : Option JSString := if s.isEmpty then none else some s

/-- The call `mobileNumber.replace(/^(\+254|254|0)/, '254')`: the first alternative that
matches at the start of the string is replaced by `254`. -/
def replaceCountryCode (s : JSString) : JSString :=
  if "+254".toList.isPrefixOf s then "254".toList ++ s.drop 4
  else if "254".toList.isPrefixOf s then "254".toList ++ s.drop 3
  else if "0".toList.isPrefixOf s then "254".toList ++ s.drop 1
  else s

/-! ## The mobile client, `App.js` -/

namespace Mobile

/-- The state `formData` of the mobile client. -/
structure FormData where
  idNumber : JSString
  mobileNumber : JSString
  firstName : JSString
  lastName : JSString
  carPlate : JSString
  deriving DecidableEq

/-- The function `validateForm` of `App.js`: `none` when it returns `true`, otherwise the
alert it raises before returning `false`. -/
def validateForm (formData : FormData) : Option ValidationError :=
  if formData.idNumber.isEmpty || jsLength formData.idNumber != 8 ||
      !test idNumberRegex formData.idNumber then
    some ValidationError.invalidId
  else if formData.mobileNumber.isEmpty ||
      !test mobileNumberRegex formData.mobileNumber then
    some ValidationError.invalidMobile
  else if (trim formData.firstName).isEmpty || (trim formData.lastName).isEmpty then
    some ValidationError.missingName
  else if !formData.carPlate.isEmpty &&
      !test carPlateRegex (toUpperCase formData.carPlate) then
    some ValidationError.invalidPlate
  else none

/-- The document `handleCheckIn` of `App.js` passes to `addDoc`, under the name `newId`
and the server time `now`. -/
def newDoc (formData : FormData) (now : Timestamp) (newId : DocId) : VisitRecord :=
  { id := newId
    idNumber := formData.idNumber
    mobileNumber := some (replaceCountryCode formData.mobileNumber)
    firstName := trim formData.firstName
    lastName := trim formData.lastName
    carPlate := orNull (trim (toUpperCase formData.carPlate))
    timeIn := now
    timeOut := none
    status := Status.inside
    createdAt := now }

/-- The function `handleCheckIn` of `App.js`, on the server time `now` and the name
`newId` the store gives a new document. -/
def handleCheckIn (formData : FormData) (now : Timestamp) (newId : DocId) (store : Store) :
    CheckInResult × Store :=
  match validateForm formData with
  | some e => (CheckInResult.rejected e, store)
  | none =>
    let snapshot := getDocsInside formData.idNumber store
    if !snapshot.isEmpty then (CheckInResult.alreadyInside, store)
    else (CheckInResult.success, addDoc (newDoc formData now newId) store)

/-- The function `handleCheckOut` of `App.js`, on the server time `now`. -/
def handleCheckOut (searchId : JSString) (now : Timestamp) (store : Store) :
    CheckOutResult × Store :=
  if searchId.isEmpty || jsLength searchId != 8 || !test idNumberRegex searchId then
    (CheckOutResult.invalidId, store)
  else
    match getDocsInside searchId store with
    | [] => (CheckOutResult.notInside, store)
    | visitorDoc :: _ => (CheckOutResult.success, updateDoc visitorDoc.id now store)

end Mobile

/-! ## The web client, `gateman-app.jsx` -/

namespace Web

/-- The state `formData` of the web client. -/
structure FormData where
  idNumber : JSString
  firstName : JSString
  lastName : JSString
  carPlate : JSString
  deriving DecidableEq

/-- The function `validateForm` of `gateman-app.jsx`: `none` when it returns `true`,
otherwise the message it shows before returning `false`. -/
def validateForm (formData : FormData) : Option ValidationError :=
  if formData.idNumber.isEmpty || jsLength formData.idNumber != 8 ||
      !test idNumberRegex formData.idNumber then
    some ValidationError.invalidId
  else if (trim formData.firstName).isEmpty || (trim formData.lastName).isEmpty then
    some ValidationError.missingName
  else if !formData.carPlate.isEmpty &&
      !test carPlateRegex (toUpperCase formData.carPlate) then
    some ValidationError.invalidPlate
  else none

/-- The document `handleCheckIn` of `gateman-app.jsx` passes to `addDoc`, under the name
`newId` and the server time `now`. -/
def newDoc (formData : FormData) (now : Timestamp) (newId : DocId) : VisitRecord :=
  { id := newId
    idNumber := formData.idNumber
    mobileNumber := none
    firstName := trim formData.firstName
    lastName := trim formData.lastName
    carPlate := orNull (trim (toUpperCase formData.carPlate))
    timeIn := now
    timeOut := none
    status := Status.inside
    createdAt := now }

/-- The function `handleCheckIn` of `gateman-app.jsx`, on the server time `now` and the
name `newId` the store gives a new document. -/
def handleCheckIn (formData : FormData) (now : Timestamp) (newId : DocId) (store : Store) :
    CheckInResult × Store :=
  match validateForm formData with
  | some e => (CheckInResult.rejected e, store)
  | none =>
    let snapshot := getDocsInside formData.idNumber store
    if !snapshot.isEmpty then (CheckInResult.alreadyInside, store)
    else (CheckInResult.success, addDoc (newDoc formData now newId) store)

/-- The function `handleCheckOut` of `gateman-app.jsx`, on the server time `now`. -/
def handleCheckOut (searchId : JSString) (now : Timestamp) (store : Store) :
    CheckOutResult × Store :=
  if searchId.isEmpty || jsLength searchId != 8 || !test idNumberRegex searchId then
    (CheckOutResult.invalidId, store)
  else
    match getDocsInside searchId store with
    | [] => (CheckOutResult.notInside, store)
    | visitorDoc :: _ => (CheckOutResult.success, updateDoc visitorDoc.id now store)

end Web

/-! ## Sequences of operations -/

/-- One check-in or check-out, by either client, with what the store supplies to it. -/
inductive Op
  | mobileCheckIn (formData : Mobile.FormData) (now : Timestamp) (newId : DocId)
  | webCheckIn (formData : Web.FormData) (now : Timestamp) (newId : DocId)
  | mobileCheckOut (searchId : JSString) (now : Timestamp)
  | webCheckOut (searchId : JSString) (now : Timestamp)

/-- The store after one operation. -/
def Op.run : Op → Store → Store
  | Op.mobileCheckIn formData now newId, store =>
    (Mobile.handleCheckIn formData now newId store).2
  | Op.webCheckIn formData now newId, store => (Web.handleCheckIn formData now newId store).2
  | Op.mobileCheckOut searchId now, store => (Mobile.handleCheckOut searchId now store).2
  | Op.webCheckOut searchId now, store => (Web.handleCheckOut searchId now store).2

/-- The store after the operations `ops`, executed one after the other. -/
def runOps (ops : List Op) (store : Store) : Store :=
  ops.foldl (fun s op => op.run s) store

/-- The records of `store` with the given `idNumber` and `status = inside`. -/
def insideCount (idNumber : JSString) (store : Store) : Nat :=
  store.countP (fun d => decide (d.idNumber = idNumber ∧ d.status = Status.inside))

/-! ## Both clients at once -/

/-- A check-in form, submitted on the mobile or on the web client. -/
inductive CheckInForm
  | mobile (formData : Mobile.FormData)
  | web (formData : Web.FormData)
  deriving DecidableEq

/-- The field `idNumber` of a form. -/
def CheckInForm.idNumber : CheckInForm → JSString
  | CheckInForm.mobile formData => formData.idNumber
  | CheckInForm.web formData => formData.idNumber

/-- The field `firstName` of a form. -/
def CheckInForm.firstName : CheckInForm → JSString
  | CheckInForm.mobile formData => formData.firstName
  | CheckInForm.web formData => formData.firstName

/-- The field `lastName` of a form. -/
def CheckInForm.lastName : CheckInForm → JSString
  | CheckInForm.mobile formData => formData.lastName
  | CheckInForm.web formData => formData.lastName

/-- The field `carPlate` of a form. -/
def CheckInForm.carPlate : CheckInForm → JSString
  | CheckInForm.mobile formData => formData.carPlate
  | CheckInForm.web formData => formData.carPlate

/-- The function `validateForm` of the client the form was submitted on. -/
def CheckInForm.validateForm : CheckInForm → Option ValidationError
  | CheckInForm.mobile formData => Mobile.validateForm formData
  | CheckInForm.web formData => Web.validateForm formData

/-- The function `handleCheckIn` of the client the form was submitted on. -/
def CheckInForm.handleCheckIn :
    CheckInForm → Timestamp → DocId → Store → CheckInResult × Store
  | CheckInForm.mobile formData => Mobile.handleCheckIn formData
  | CheckInForm.web formData => Web.handleCheckIn formData

/-- The document `handleCheckIn` of the client the form was submitted on passes to
`addDoc`. -/
def CheckInForm.newDoc : CheckInForm → Timestamp → DocId → VisitRecord
  | CheckInForm.mobile formData => Mobile.newDoc formData
  | CheckInForm.web formData => Web.newDoc formData

/-- The form with its field `carPlate` set to `p`. -/
def CheckInForm.withCarPlate : CheckInForm → JSString → CheckInForm
  | CheckInForm.mobile formData, p => CheckInForm.mobile { formData with carPlate := p }
  | CheckInForm.web formData, p => CheckInForm.web { formData with carPlate := p }

/-- The two clients. -/
inductive Client
  | mobile
  | web
  deriving DecidableEq

/-- The function `handleCheckOut` of a client. -/
def Client.handleCheckOut : Client → JSString → Timestamp → Store → CheckOutResult × Store
  | Client.mobile => Mobile.handleCheckOut
  | Client.web => Web.handleCheckOut

/-! ## The calls issued to the store -/

/-- A call to the store: one of the three queries of the clients, an insert or an
update. -/
inductive StoreCall
  | getDocsInside (idNumber : JSString)
  | getDocsActive
  | getDocsRecent
  | addDoc (d : VisitRecord)
  | updateDoc (id : DocId) (now : Timestamp)
  deriving DecidableEq

namespace Mobile

/-- The calls `handleCheckIn` of `App.js` issues to the store, in order: nothing after a
failed validation; the pre-check query; then the insert and the two queries of
`loadData`. -/
def handleCheckInCalls (formData : FormData) (now : Timestamp) (newId : DocId)
    (store : Store) : List StoreCall :=
  match validateForm formData with
  | some _ => []
  | none =>
    let snapshot := getDocsInside formData.idNumber store
    if !snapshot.isEmpty then [StoreCall.getDocsInside formData.idNumber]
    else [StoreCall.getDocsInside formData.idNumber,
      StoreCall.addDoc (newDoc formData now newId), StoreCall.getDocsActive,
      StoreCall.getDocsRecent]

/-- The calls `handleCheckOut` of `App.js` issues to the store, in order. -/
def handleCheckOutCalls (searchId : JSString) (now : Timestamp) (store : Store) :
    List StoreCall :=
  if searchId.isEmpty || jsLength searchId != 8 || !test idNumberRegex searchId then []
  else
    match getDocsInside searchId store with
    | [] => [StoreCall.getDocsInside searchId]
    | visitorDoc :: _ => [StoreCall.getDocsInside searchId,
      StoreCall.updateDoc visitorDoc.id now, StoreCall.getDocsActive,
      StoreCall.getDocsRecent]

end Mobile

namespace Web

/-- The calls `handleCheckIn` of `gateman-app.jsx` issues to the store, in order. -/
def handleCheckInCalls (formData : FormData) (now : Timestamp) (newId : DocId)
    (store : Store) : List StoreCall :=
  match validateForm formData with
  | some _ => []
  | none =>
    let snapshot := getDocsInside formData.idNumber store
    if !snapshot.isEmpty then [StoreCall.getDocsInside formData.idNumber]
    else [StoreCall.getDocsInside formData.idNumber,
      StoreCall.addDoc (newDoc formData now newId), StoreCall.getDocsActive,
      StoreCall.getDocsRecent]

/-- The calls `handleCheckOut` of `gateman-app.jsx` issues to the store, in order. -/
def handleCheckOutCalls (searchId : JSString) (now : Timestamp) (store : Store) :
    List StoreCall :=
  if searchId.isEmpty || jsLength searchId != 8 || !test idNumberRegex searchId then []
  else
    match getDocsInside searchId store with
    | [] => [StoreCall.getDocsInside searchId]
    | visitorDoc :: _ => [StoreCall.getDocsInside searchId,
      StoreCall.updateDoc visitorDoc.id now, StoreCall.getDocsActive,
      StoreCall.getDocsRecent]

end Web

/-- The calls issued by `handleCheckIn` of the client the form was submitted on. -/
def CheckInForm.handleCheckInCalls :
    CheckInForm → Timestamp → DocId → Store → List StoreCall
  | CheckInForm.mobile formData => Mobile.handleCheckInCalls formData
  | CheckInForm.web formData => Web.handleCheckInCalls formData

/-- The calls issued by `handleCheckOut` of a client. -/
def Client.handleCheckOutCalls : Client → JSString → Timestamp → Store → List StoreCall
  | Client.mobile => Mobile.handleCheckOutCalls
  | Client.web => Web.handleCheckOutCalls

/-- The server time of an operation. -/
def Op.now : Op → Timestamp
  | Op.mobileCheckIn _ now _ => now
  | Op.webCheckIn _ now _ => now
  | Op.mobileCheckOut _ now => now
  | Op.webCheckOut _ now => now

/-! ## The views -/

/-- The order of `orderBy('timeIn', 'desc')`: the later timeIn first, and documents of
equal timeIn by name, descending as well. -/
def newerFirst (a b : VisitRecord) : Bool :=
  decide (b.timeIn < a.timeIn) || (decide (b.timeIn = a.timeIn) && decide (b.id ≤ a.id))

/-- The query `where('status', '==', 'inside'), orderBy('timeIn', 'desc')` run by
`getDocs`. -/
def getDocsActive (store : Store) : List VisitRecord :=
  (store.filter (fun d => decide (d.status = Status.inside))).insertionSort
    (fun a b => newerFirst a b = true)

/-- The query `orderBy('timeIn', 'desc')` run by `getDocs`. -/
def getDocsRecent (store : Store) : List VisitRecord :=
  store.insertionSort (fun a b => newerFirst a b = true)

namespace Mobile

/-- The list `loadActiveVisitors` of `App.js` puts in `activeVisitors`.  An entry of the
view is the document itself: the fields are copied, and `toDate` is the identity on server
times in milliseconds. -/
def loadActiveVisitors (store : Store) : List VisitRecord := getDocsActive store

/-- The list `loadRecentActivity` of `App.js` puts in `recentActivity`: `slice(0, 50)` of
the query result. -/
def loadRecentActivity (store : Store) : List VisitRecord := (getDocsRecent store).take 50

end Mobile

namespace Web

/-- The list `loadActiveVisitors` of `gateman-app.jsx` puts in `activeVisitors`. -/
def loadActiveVisitors (store : Store) : List VisitRecord := getDocsActive store

/-- The list `loadRecentActivity` of `gateman-app.jsx` puts in `recentActivity`:
`slice(0, 20)` of the query result. -/
def loadRecentActivity (store : Store) : List VisitRecord := (getDocsRecent store).take 20

end Web

/-- The function `loadActiveVisitors` of a client. -/
def Client.loadActiveVisitors : Client → Store → List VisitRecord
  | Client.mobile => Mobile.loadActiveVisitors
  | Client.web => Web.loadActiveVisitors

/-- The function `loadRecentActivity` of a client. -/
def Client.loadRecentActivity : Client → Store → List VisitRecord
  | Client.mobile => Mobile.loadRecentActivity
  | Client.web => Web.loadRecentActivity

/-- The number of entries the specification gives the recent-activity view of a client. -/
def Client.recentLimit : Client → Nat
  | Client.mobile => 50
  | Client.web => 20

/-! ## Formatting -/

/-- A `Date`, or the time value of one: milliseconds since the epoch, an integer. -/
abbrev JSDate := Int

/-- The time values a `Date` can hold: at most 8640000000000000 in magnitude. -/
def IsDate (t : Int) : Prop := -8640000000000000 ≤ t ∧ t ≤ 8640000000000000

/-- The method `toDate` of a server time. -/
def toDate (t : Timestamp) : JSDate := (t : Int)

/-- An integer number in a template literal: its decimal digits, after a minus sign when
it is negative. -/
def numberToString (n : Int) : JSString := (toString n).toList

/-- The function `formatTime` of both clients, on `intlFormat`, the method `format` of the
`Intl.DateTimeFormat` it builds; `none` is an absent (`undefined`) date, and a `Date`
object is truthy whatever its time value. -/
def formatTime (intlFormat : JSDate → JSString) (date : Option JSDate) : JSString :=
  match date with
  | none => "-".toList
  | some d => intlFormat d

/-- The integer nearest to `x`, the nearest even one when `x` lies half-way between two
integers. -/
def roundHalfEven (x : ℚ) : Int :=
  if x - ⌊x⌋ < 1 / 2 then ⌊x⌋
  else if 1 / 2 < x - ⌊x⌋ then ⌊x⌋ + 1
  else if ⌊x⌋ % 2 = 0 then ⌊x⌋ else ⌊x⌋ + 1

/-- The double nearest to the number `q`, the result of an arithmetic operation whose exact
value is `q`: a significand of 53 binary digits, rounded to nearest with ties to even, times
a power of two (no overflow and no underflow occur at the magnitudes of `formatDuration`,
from 1 / 3600000 to 2 ^ 54). -/
def toDouble (q : ℚ) : ℚ :=
  if q = 0 then 0
  else (roundHalfEven (q / 2 ^ (Int.log 2 |q| - 52)) : ℚ) * 2 ^ (Int.log 2 |q| - 52)

/-- The integer part of a number, rounding toward zero. -/
def truncate (x : ℚ) : Int := if 0 ≤ x then ⌊x⌋ else ⌈x⌉

/-- The operator `%` on numbers: the remainder that takes the sign of the dividend.  It is
a double whenever `a` and `b` are, so it is not rounded. -/
def remainder (a b : ℚ) : ℚ := a - b * (truncate (a / b) : ℚ)

/-- The function `formatDuration` of both clients; `none` is an absent (`undefined`)
date.  The subtraction and the two divisions are rounded to doubles, and `Math.floor` of a
double is an integer. -/
def formatDuration (timeIn timeOut : Option JSDate) : JSString :=
  match timeIn, timeOut with
  | some tIn, some tOut =>
    let diff : ℚ := toDouble ((tOut : ℚ) - (tIn : ℚ))
    let hours : Int := ⌊toDouble (diff / (1000 * 60 * 60))⌋
    let minutes : Int := ⌊toDouble (remainder diff (1000 * 60 * 60) / (1000 * 60))⌋
    numberToString hours ++ "h ".toList ++ numberToString minutes ++ "m".toList
  | _, _ => "-".toList

/-- The double nearest to an integer `x` below 2 ^ 54 in magnitude, in integer arithmetic:
`x` itself up to 2 ^ 53, above it the nearest even integer, and of two equally near ones
the multiple of 4. -/
def nearestDouble (x : Int) : Int :=
  if -9007199254740992 ≤ x ∧ x ≤ 9007199254740992 then x
  else 2 * (if x % 2 = 0 then x / 2 else if x / 2 % 2 = 0 then x / 2 else x / 2 + 1)

/-! ## The formats named by the specification -/

/-- A mobile number as the specification describes it: an optional prefix `254`, `+254`
or `0`, then exactly 9 decimal digits of which the first is 1 or 7. -/
def IsMobileNumber (m : JSString) : Prop :=
  ∃ pre d : List Char, m = pre ++ d ∧
    (pre = [] ∨ pre = "254".toList ∨ pre = "+254".toList ∨ pre = "0".toList) ∧
    d.length = 9 ∧ d.all Char.isDigit = true ∧ (d.head? = some '1' ∨ d.head? = some '7')

/-- A car plate as the specification describes it: three letters, three decimal digits
and one letter, the letters in either case, and nothing else. -/
def IsPlate (p : JSString) : Prop :=
  ∃ a b c x y z d : Char, p = [a, b, c, x, y, z, d] ∧
    a.isAlpha = true ∧ b.isAlpha = true ∧ c.isAlpha = true ∧
    x.isDigit = true ∧ y.isDigit = true ∧ z.isDigit = true ∧ d.isAlpha = true

/-- A car plate in upper case: three letters `A`..`Z`, three decimal digits and one letter
`A`..`Z`, and nothing else. -/
def IsUpperPlate (p : JSString) : Prop :=
  ∃ a b c x y z d : Char, p = [a, b, c, x, y, z, d] ∧
    a.isUpper = true ∧ b.isUpper = true ∧ c.isUpper = true ∧
    x.isDigit = true ∧ y.isDigit = true ∧ z.isDigit = true ∧ d.isUpper = true

/-- A name as the data model describes it: non-empty, with no white space at its start or
at its end. -/
def IsTrimmedName (s : JSString) : Prop :=
  s ≠ [] ∧ (∀ c, s.head? = some c → isWhiteSpace c = false) ∧
    (∀ c, s.getLast? = some c → isWhiteSpace c = false)

/-- A record as the data model describes it: an idNumber of exactly 8 decimal digits,
trimmed non-empty names, and a carPlate that is absent or an upper-case plate. -/
def IsWellFormedRecord (d : VisitRecord) : Prop :=
  (d.idNumber.length = 8 ∧ d.idNumber.all Char.isDigit = true) ∧
  IsTrimmedName d.firstName ∧ IsTrimmedName d.lastName ∧
  (d.carPlate = none ∨ ∃ p, d.carPlate = some p ∧ IsUpperPlate p)

/-- The fields of a mobile form that the web form has too. -/
def Mobile.FormData.toWeb (formData : Mobile.FormData) : Web.FormData :=
  { idNumber := formData.idNumber
    firstName := formData.firstName
    lastName := formData.lastName
    carPlate := formData.carPlate }

/-! ## Regular expressions: what the three literals match -/

theorem charClass_rmatch_iff (cs : List Char) (x : List Char) :
    (charClass cs).rmatch x ↔ ∃ c, c ∈ cs ∧ x = [c] := by
  induction cs with
  | nil => simp [charClass]
  | cons a cs ih =>
    have h : charClass (a :: cs) = RegularExpression.char a + charClass cs := rfl
    rw [h, add_rmatch_iff, char_rmatch_iff, ih]
    constructor
    · rintro (h | ⟨c, hc, hx⟩)
      · exact ⟨a, List.mem_cons_self _ _, h⟩
      · exact ⟨c, List.mem_cons_of_mem _ hc, hx⟩
    · rintro ⟨c, hc, hx⟩
      rcases List.mem_cons.1 hc with h | h
      · left; rw [hx, h]
      · exact Or.inr ⟨c, h, hx⟩

theorem pow_charClass_rmatch_iff (cs : List Char) (n : Nat) (x : List Char) :
    (charClass cs ^ n).rmatch x ↔ x.length = n ∧ ∀ c ∈ x, c ∈ cs := by
  induction n generalizing x with
  | zero =>
    have h : charClass cs ^ 0 = 1 := rfl
    rw [h, one_rmatch_iff]
    constructor
    · rintro rfl; simp
    · rintro ⟨h, -⟩; exact List.length_eq_zero.1 h
  | succ n ih =>
    have h : charClass cs ^ (n + 1) = charClass cs ^ n * charClass cs := rfl
    rw [h, mul_rmatch_iff]
    constructor
    · rintro ⟨t, u, rfl, ht, hu⟩
      obtain ⟨c, hc, rfl⟩ := (charClass_rmatch_iff cs u).1 hu
      obtain ⟨hl, hall⟩ := (ih t).1 ht
      refine ⟨by simp [hl], ?_⟩
      intro d hd
      rcases List.mem_append.1 hd with hd | hd
      · exact hall d hd
      · rw [List.mem_singleton.1 hd]; exact hc
    · rintro ⟨hl, hall⟩
      have hne : x ≠ [] := by
        intro h0; rw [h0] at hl; simp at hl
      refine ⟨x.dropLast, [x.getLast hne], (List.dropLast_append_getLast hne).symm, ?_, ?_⟩
      · refine (ih _).2 ⟨by simp [hl], ?_⟩
        intro c hc
        exact hall c (List.mem_of_mem_dropLast hc)
      · exact (charClass_rmatch_iff cs _).2 ⟨_, hall _ (List.getLast_mem hne), rfl⟩

theorem literal_rmatch_iff (s : List Char) (x : List Char) :
    (literal s).rmatch x ↔ x = s := by
  induction s generalizing x with
  | nil =>
    have h : literal [] = 1 := rfl
    rw [h, one_rmatch_iff]
  | cons a s ih =>
    have h : literal (a :: s) = RegularExpression.char a * literal s := rfl
    rw [h, mul_rmatch_iff]
    constructor
    · rintro ⟨t, u, rfl, ht, hu⟩
      rw [(char_rmatch_iff a t).1 ht, (ih u).1 hu]; rfl
    · rintro rfl
      exact ⟨[a], s, rfl, (char_rmatch_iff a _).2 rfl, (ih s).2 rfl⟩

/-! ## Characters -/

theorem isDigit_iff (c : Char) : c.isDigit = true ↔ 48 ≤ c.toNat ∧ c.toNat ≤ 57 := by
  simp only [Char.isDigit, Bool.and_eq_true, decide_eq_true_eq, ge_iff_le, UInt32.le_def,
    Char.toNat]
  rfl

theorem isUpper_iff (c : Char) : c.isUpper = true ↔ 65 ≤ c.toNat ∧ c.toNat ≤ 90 := by
  simp only [Char.isUpper, Bool.and_eq_true, decide_eq_true_eq, ge_iff_le, UInt32.le_def,
    Char.toNat]
  rfl

theorem isLower_iff (c : Char) : c.isLower = true ↔ 97 ≤ c.toNat ∧ c.toNat ≤ 122 := by
  simp only [Char.isLower, Bool.and_eq_true, decide_eq_true_eq, ge_iff_le, UInt32.le_def,
    Char.toNat]
  rfl

theorem isAlpha_iff (c : Char) :
    c.isAlpha = true ↔ (65 ≤ c.toNat ∧ c.toNat ≤ 90) ∨ (97 ≤ c.toNat ∧ c.toNat ≤ 122) := by
  simp only [Char.isAlpha, Bool.or_eq_true, isUpper_iff, isLower_iff]

theorem mem_digitChars_iff (c : Char) : c ∈ digitChars ↔ c.isDigit = true := by
  constructor
  · intro h
    have hall : ∀ d ∈ digitChars, d.isDigit = true := by decide
    exact hall c h
  · intro h
    have hlt : c.toNat < 128 := by
      have := (isDigit_iff c).1 h
      omega
    have hall : ∀ n, n < 128 → (Char.ofNat n).isDigit = true → Char.ofNat n ∈ digitChars := by
      decide
    have := hall c.toNat hlt
    rw [Char.ofNat_toNat] at this
    exact this h

theorem mem_letterChars_iff (c : Char) : c ∈ letterCharsIgnoreCase ↔ c.isAlpha = true := by
  constructor
  · intro h
    have hall : ∀ d ∈ letterCharsIgnoreCase, d.isAlpha = true := by decide
    exact hall c h
  · intro h
    have hlt : c.toNat < 128 := by
      have := (isAlpha_iff c).1 h
      omega
    have hall : ∀ n, n < 128 → (Char.ofNat n).isAlpha = true →
        Char.ofNat n ∈ letterCharsIgnoreCase := by
      decide
    have := hall c.toNat hlt
    rw [Char.ofNat_toNat] at this
    exact this h

theorem jsLength_eq_length (s : JSString) (h : ∀ c ∈ s, c.toNat < 0x10000) :
    jsLength s = s.length := by
  induction s with
  | nil => rfl
  | cons a s ih =>
    have ha : utf16Units a = 1 := by
      simp [utf16Units, h a (List.mem_cons_self _ _)]
    have := ih (fun c hc => h c (List.mem_cons_of_mem _ hc))
    simp only [jsLength, List.map_cons, List.sum_cons, List.length_cons] at this ⊢
    omega

/-- The three-part test on an ID number, as written in `validateForm` and
`handleCheckOut`, fails exactly on the strings that are not eight digits. -/
theorem idNumber_test_false_iff (s : JSString) :
    (s.isEmpty || jsLength s != 8 || !test idNumberRegex s) = false ↔
      s.length = 8 ∧ s.all Char.isDigit = true := by
  have hre : test idNumberRegex s = true ↔ s.length = 8 ∧ s.all Char.isDigit = true := by
    unfold test idNumberRegex
    rw [pow_charClass_rmatch_iff, List.all_eq_true]
    simp only [mem_digitChars_iff]
  constructor
  · intro h
    simp only [Bool.or_eq_false_iff, Bool.not_eq_false'] at h
    exact hre.1 h.2
  · intro h
    have hre2 := hre.2 h
    have hlen : jsLength s = 8 := by
      rw [jsLength_eq_length, h.1]
      intro c hc
      have := (isDigit_iff c).1 (List.all_eq_true.1 h.2 c hc)
      omega
    have hne : s.isEmpty = false := by
      cases s with
      | nil => simp at h
      | cons a s => rfl
    simp [hre2, hlen, hne]

/-! ## The handlers, case by case -/

theorem handleCheckIn_eq (form : CheckInForm) (now : Timestamp) (newId : DocId)
    (store : Store) :
    form.handleCheckIn now newId store =
      match form.validateForm with
      | some e => (CheckInResult.rejected e, store)
      | none =>
        if (getDocsInside form.idNumber store).isEmpty then
          (CheckInResult.success, addDoc (form.newDoc now newId) store)
        else (CheckInResult.alreadyInside, store) := by
  cases form with
  | mobile f =>
    simp only [CheckInForm.handleCheckIn, CheckInForm.validateForm, CheckInForm.idNumber,
      CheckInForm.newDoc, Mobile.handleCheckIn]
    cases Mobile.validateForm f with
    | some e => rfl
    | none => cases h : (getDocsInside f.idNumber store).isEmpty <;> simp [h]
  | web f =>
    simp only [CheckInForm.handleCheckIn, CheckInForm.validateForm, CheckInForm.idNumber,
      CheckInForm.newDoc, Web.handleCheckIn]
    cases Web.validateForm f with
    | some e => rfl
    | none => cases h : (getDocsInside f.idNumber store).isEmpty <;> simp [h]

theorem handleCheckOut_eq (client : Client) (searchId : JSString) (now : Timestamp)
    (store : Store) :
    client.handleCheckOut searchId now store =
      if searchId.isEmpty || jsLength searchId != 8 || !test idNumberRegex searchId then
        (CheckOutResult.invalidId, store)
      else
        match getDocsInside searchId store with
        | [] => (CheckOutResult.notInside, store)
        | visitorDoc :: _ => (CheckOutResult.success, updateDoc visitorDoc.id now store) := by
  cases client <;> rfl

theorem getDocsInside_eq_nil_iff (idNumber : JSString) (store : Store) :
    getDocsInside idNumber store = [] ↔
      ∀ d ∈ store, d.idNumber = idNumber → d.status ≠ Status.inside := by
  simp [getDocsInside, List.filter_eq_nil_iff]

theorem newDoc_fields (form : CheckInForm) (now : Timestamp) (newId : DocId) :
    (form.newDoc now newId).id = newId ∧
    (form.newDoc now newId).idNumber = form.idNumber ∧
    (form.newDoc now newId).firstName = trim form.firstName ∧
    (form.newDoc now newId).lastName = trim form.lastName ∧
    (form.newDoc now newId).carPlate = orNull (trim (toUpperCase form.carPlate)) ∧
    (form.newDoc now newId).timeIn = now ∧
    (form.newDoc now newId).timeOut = none ∧
    (form.newDoc now newId).status = Status.inside ∧
    (form.newDoc now newId).createdAt = now := by
  cases form <;> exact ⟨rfl, rfl, rfl, rfl, rfl, rfl, rfl, rfl, rfl⟩

/-! ## Counting the open visits -/

theorem insideCount_addDoc (idNumber : JSString) (d : VisitRecord) (store : Store) :
    insideCount idNumber (addDoc d store) = insideCount idNumber (d :: store) :=
  List.Perm.countP_eq _ (List.perm_orderedInsert _ _ _)

theorem insideCount_updateDoc_le (idNumber : JSString) (id : DocId) (now : Timestamp)
    (store : Store) :
    insideCount idNumber (updateDoc id now store) ≤ insideCount idNumber store := by
  unfold insideCount updateDoc
  rw [List.countP_map]
  apply List.countP_mono_left
  intro d _ hd
  simp only [Function.comp_apply] at hd
  split_ifs at hd with h
  · simp at hd
  · exact hd

theorem insideCount_eq_zero (idNumber : JSString) (store : Store)
    (h : getDocsInside idNumber store = []) : insideCount idNumber store = 0 := by
  unfold insideCount
  rw [List.countP_eq_length_filter]
  unfold getDocsInside at h
  rw [h]
  rfl

/-- A check-in keeps the property that no ID number has two open visits. -/
theorem handleCheckIn_keeps_unique (form : CheckInForm) (now : Timestamp) (newId : DocId)
    (store : Store) (h : ∀ idNumber, insideCount idNumber store ≤ 1) (idNumber : JSString) :
    insideCount idNumber (form.handleCheckIn now newId store).2 ≤ 1 := by
  rw [handleCheckIn_eq]
  cases form.validateForm with
  | some e => exact h idNumber
  | none =>
    cases hq : getDocsInside form.idNumber store with
    | cons a l => exact h idNumber
    | nil =>
      simp only [List.isEmpty_nil, if_true]
      rw [insideCount_addDoc]
      unfold insideCount
      rw [List.countP_cons]
      by_cases hx : form.idNumber = idNumber
      · have h0 := insideCount_eq_zero _ _ hq
        rw [hx] at h0
        unfold insideCount at h0
        rw [h0]
        split_ifs <;> omega
      · have hd := (newDoc_fields form now newId).2.1
        have := h idNumber
        unfold insideCount at this
        rw [if_neg (by simp [hd, hx])]
        exact this

theorem handleCheckOut_keeps_unique (client : Client) (searchId : JSString) (now : Timestamp)
    (store : Store) (h : ∀ idNumber, insideCount idNumber store ≤ 1) (idNumber : JSString) :
    insideCount idNumber (client.handleCheckOut searchId now store).2 ≤ 1 := by
  rw [handleCheckOut_eq]
  split_ifs
  · exact h idNumber
  · cases getDocsInside searchId store with
    | nil => exact h idNumber
    | cons a l => exact le_trans (insideCount_updateDoc_le _ _ _ _) (h idNumber)

theorem run_keeps_unique (op : Op) (store : Store)
    (h : ∀ idNumber, insideCount idNumber store ≤ 1) (idNumber : JSString) :
    insideCount idNumber (op.run store) ≤ 1 := by
  cases op with
  | mobileCheckIn f now newId =>
    exact handleCheckIn_keeps_unique (CheckInForm.mobile f) now newId store h idNumber
  | webCheckIn f now newId =>
    exact handleCheckIn_keeps_unique (CheckInForm.web f) now newId store h idNumber
  | mobileCheckOut searchId now =>
    exact handleCheckOut_keeps_unique Client.mobile searchId now store h idNumber
  | webCheckOut searchId now =>
    exact handleCheckOut_keeps_unique Client.web searchId now store h idNumber

theorem runOps_keeps_unique (ops : List Op) (store : Store)
    (h : ∀ idNumber, insideCount idNumber store ≤ 1) (idNumber : JSString) :
    insideCount idNumber (runOps ops store) ≤ 1 := by
  induction ops generalizing store with
  | nil => exact h idNumber
  | cons op ops ih => exact ih (op.run store) (run_keeps_unique op store h)

/-! ## One visit, from check-in to check-out -/

theorem validateForm_none_idNumber (form : CheckInForm) (h : form.validateForm = none) :
    (form.idNumber.isEmpty || jsLength form.idNumber != 8 ||
      !test idNumberRegex form.idNumber) = false := by
  cases form with
  | mobile f =>
    simp only [CheckInForm.validateForm, Mobile.validateForm] at h
    simp only [CheckInForm.idNumber]
    split_ifs at h with h1
    simpa using h1
  | web f =>
    simp only [CheckInForm.validateForm, Web.validateForm] at h
    simp only [CheckInForm.idNumber]
    split_ifs at h with h1
    simpa using h1

theorem filter_addDoc_singleton (p : VisitRecord → Bool) (d : VisitRecord) (store : Store)
    (hd : p d = true) (hstore : ∀ r ∈ store, p r = false) :
    (addDoc d store).filter p = [d] := by
  have hperm : ((addDoc d store).filter p).Perm ((d :: store).filter p) :=
    List.Perm.filter p (List.perm_orderedInsert _ _ _)
  have hnil : store.filter p = [] := by
    rw [List.filter_eq_nil_iff]
    intro r hr
    simp [hstore r hr]
  rw [List.filter_cons_of_pos hd, hnil] at hperm
  exact List.perm_singleton.1 hperm

theorem filter_idNumber_updateDoc (idNumber : JSString) (id : DocId) (now : Timestamp)
    (store : Store) :
    (updateDoc id now store).filter (fun r => decide (r.idNumber = idNumber)) =
      (store.filter (fun r => decide (r.idNumber = idNumber))).map
        (fun d => if d.id = id then { d with timeOut := some now, status := Status.left }
          else d) := by
  unfold updateDoc
  rw [List.filter_map]
  congr 1
  apply List.filter_congr
  intro d _
  simp only [Function.comp_apply]
  split_ifs <;> rfl

/-! ## The mobile-number and car-plate literals -/

theorem mobileNumberRegex_test_iff (m : JSString) :
    test mobileNumberRegex m = true ↔ IsMobileNumber m := by
  unfold test mobileNumberRegex IsMobileNumber
  rw [mul_rmatch_iff]
  constructor
  · rintro ⟨t, u, rfl, ht, hu⟩
    refine ⟨t, u, rfl, ?_, ?_⟩
    · rw [add_rmatch_iff, add_rmatch_iff, add_rmatch_iff, literal_rmatch_iff,
        literal_rmatch_iff, literal_rmatch_iff, one_rmatch_iff] at ht
      tauto
    · rw [mul_rmatch_iff] at hu
      obtain ⟨v, w, rfl, hv, hw⟩ := hu
      obtain ⟨c, hc, rfl⟩ := (charClass_rmatch_iff _ _).1 hv
      obtain ⟨hl, hall⟩ := (pow_charClass_rmatch_iff _ _ _).1 hw
      have hc2 : c = '1' ∨ c = '7' := by simpa using hc
      refine ⟨by simp [hl], ?_, ?_⟩
      · rw [List.all_eq_true]
        intro e he
        rcases List.mem_append.1 he with he | he
        · rw [List.mem_singleton.1 he]
          rcases hc2 with rfl | rfl <;> decide
        · exact (mem_digitChars_iff e).1 (hall e he)
      · rcases hc2 with rfl | rfl
        · left; rfl
        · right; rfl
  · rintro ⟨pre, d, rfl, hpre, hl, hall, hhead⟩
    refine ⟨pre, d, rfl, ?_, ?_⟩
    · rw [add_rmatch_iff, add_rmatch_iff, add_rmatch_iff, literal_rmatch_iff,
        literal_rmatch_iff, literal_rmatch_iff, one_rmatch_iff]
      tauto
    · cases d with
      | nil => simp at hl
      | cons c w =>
        rw [mul_rmatch_iff]
        refine ⟨[c], w, rfl, ?_, ?_⟩
        · apply (charClass_rmatch_iff _ _).2
          refine ⟨c, ?_, rfl⟩
          simp only [List.head?_cons, Option.some.injEq] at hhead
          rcases hhead with rfl | rfl <;> simp
        · apply (pow_charClass_rmatch_iff _ _ _).2
          refine ⟨by simpa using hl, ?_⟩
          intro e he
          exact (mem_digitChars_iff e).2
            (List.all_eq_true.1 hall e (List.mem_cons_of_mem _ he))

theorem carPlateRegex_test_iff (u : JSString) :
    test carPlateRegex u = true ↔ IsPlate u := by
  unfold test carPlateRegex IsPlate
  rw [mul_rmatch_iff]
  constructor
  · rintro ⟨t, w, rfl, ht, hw⟩
    rw [mul_rmatch_iff] at ht
    obtain ⟨t1, t2, rfl, h1, h2⟩ := ht
    obtain ⟨d, hd, rfl⟩ := (charClass_rmatch_iff _ _).1 hw
    obtain ⟨hl1, hall1⟩ := (pow_charClass_rmatch_iff _ _ _).1 h1
    obtain ⟨hl2, hall2⟩ := (pow_charClass_rmatch_iff _ _ _).1 h2
    obtain ⟨a, b, c, rfl⟩ := List.length_eq_three.1 hl1
    obtain ⟨x, y, z, rfl⟩ := List.length_eq_three.1 hl2
    refine ⟨a, b, c, x, y, z, d, rfl, ?_, ?_, ?_, ?_, ?_, ?_, ?_⟩
    · exact (mem_letterChars_iff _).1 (hall1 _ (by simp))
    · exact (mem_letterChars_iff _).1 (hall1 _ (by simp))
    · exact (mem_letterChars_iff _).1 (hall1 _ (by simp))
    · exact (mem_digitChars_iff _).1 (hall2 _ (by simp))
    · exact (mem_digitChars_iff _).1 (hall2 _ (by simp))
    · exact (mem_digitChars_iff _).1 (hall2 _ (by simp))
    · exact (mem_letterChars_iff _).1 hd
  · rintro ⟨a, b, c, x, y, z, d, rfl, ha, hb, hc, hx, hy, hz, hd⟩
    refine ⟨[a, b, c, x, y, z], [d], rfl, ?_, ?_⟩
    · rw [mul_rmatch_iff]
      refine ⟨[a, b, c], [x, y, z], rfl, ?_, ?_⟩
      · apply (pow_charClass_rmatch_iff _ _ _).2
        refine ⟨rfl, ?_⟩
        intro e he
        simp only [List.mem_cons, List.mem_singleton, List.not_mem_nil, or_false] at he
        rcases he with rfl | rfl | rfl <;> exact (mem_letterChars_iff _).2 (by assumption)
      · apply (pow_charClass_rmatch_iff _ _ _).2
        refine ⟨rfl, ?_⟩
        intro e he
        simp only [List.mem_cons, List.mem_singleton, List.not_mem_nil, or_false] at he
        rcases he with rfl | rfl | rfl <;> exact (mem_digitChars_iff _).2 (by assumption)
    · exact (charClass_rmatch_iff _ _).2 ⟨d, (mem_letterChars_iff _).2 hd, rfl⟩

/-! ## Upper case and trimming -/

theorem upperChar_ascii (c : Char) (h : c.toNat < 128) :
    upperChar c = [c.toUpper] ∧ c.toUpper.isAlpha = c.isAlpha ∧
      c.toUpper.isDigit = c.isDigit := by
  have hall : ∀ n, n < 128 →
      upperChar (Char.ofNat n) = [(Char.ofNat n).toUpper] ∧
      (Char.ofNat n).toUpper.isAlpha = (Char.ofNat n).isAlpha ∧
      (Char.ofNat n).toUpper.isDigit = (Char.ofNat n).isDigit := by
    decide
  have := hall c.toNat h
  rw [Char.ofNat_toNat] at this
  exact this

theorem upperChar_not_lower (c u : Char) (hu : u ∈ upperChar c) : u.isLower = false := by
  by_cases h : c.toNat < 128
  · have hall : ∀ n, n < 128 → (Char.ofNat n).toUpper.isLower = false := by decide
    have h1 := hall c.toNat h
    rw [Char.ofNat_toNat] at h1
    rw [(upperChar_ascii c h).1, List.mem_singleton] at hu
    rw [hu]
    exact h1
  · unfold upperChar at hu
    rw [if_neg (by omega)] at hu
    cases hf : specialUpperCase.find? (fun e => e.1 == c.toNat) with
    | some e =>
      rw [hf] at hu
      have hall : ∀ e ∈ specialUpperCase, ∀ x ∈ e.2, x.isLower = false := by decide
      exact hall e (List.mem_of_find?_eq_some hf) u hu
    | none =>
      rw [hf, List.mem_singleton] at hu
      subst hu
      cases hl : u.isLower with
      | false => rfl
      | true =>
        have := (isLower_iff u).1 hl
        omega

theorem toUpperCase_not_lower (s : JSString) (u : Char) (hu : u ∈ toUpperCase s) :
    u.isLower = false := by
  unfold toUpperCase at hu
  obtain ⟨c, -, hc⟩ := List.mem_flatMap.1 hu
  exact upperChar_not_lower c u hc

theorem toUpperCase_ascii (s : JSString) (h : ∀ c ∈ s, c.toNat < 128) :
    toUpperCase s = s.map Char.toUpper := by
  induction s with
  | nil => rfl
  | cons a s ih =>
    have ha := (upperChar_ascii a (h a (List.mem_cons_self _ _))).1
    have := ih (fun c hc => h c (List.mem_cons_of_mem _ hc))
    unfold toUpperCase at this ⊢
    rw [List.flatMap_cons, ha, this]
    rfl

theorem isPlate_toUpperCase_iff (s : JSString) :
    IsPlate (toUpperCase s) ↔ IsUpperPlate (toUpperCase s) := by
  have hup : ∀ u ∈ toUpperCase s, u.isAlpha = true ↔ u.isUpper = true := by
    intro u hu
    have := toUpperCase_not_lower s u hu
    simp [Char.isAlpha, this]
  constructor
  · rintro ⟨a, b, c, x, y, z, d, he, ha, hb, hc, hx, hy, hz, hd⟩
    refine ⟨a, b, c, x, y, z, d, he, ?_, ?_, ?_, hx, hy, hz, ?_⟩
    · exact (hup a (by rw [he]; simp)).1 ha
    · exact (hup b (by rw [he]; simp)).1 hb
    · exact (hup c (by rw [he]; simp)).1 hc
    · exact (hup d (by rw [he]; simp)).1 hd
  · rintro ⟨a, b, c, x, y, z, d, he, ha, hb, hc, hx, hy, hz, hd⟩
    refine ⟨a, b, c, x, y, z, d, he, ?_, ?_, ?_, hx, hy, hz, ?_⟩
    · exact (hup a (by rw [he]; simp)).2 ha
    · exact (hup b (by rw [he]; simp)).2 hb
    · exact (hup c (by rw [he]; simp)).2 hc
    · exact (hup d (by rw [he]; simp)).2 hd

theorem isPlate_map_toUpper_iff (s : JSString) (h : ∀ c ∈ s, c.toNat < 128) :
    IsPlate (s.map Char.toUpper) ↔ IsPlate s := by
  have key : ∀ c ∈ s, c.toUpper.isAlpha = c.isAlpha ∧ c.toUpper.isDigit = c.isDigit :=
    fun c hc => (upperChar_ascii c (h c hc)).2
  constructor
  · rintro ⟨a, b, c, x, y, z, d, he, ha, hb, hc, hx, hy, hz, hd⟩
    have hlen : s.length = 7 := by
      have := congrArg List.length he
      simpa using this
    match s, hlen, he, key with
    | [a1, b1, c1, x1, y1, z1, d1], _, he, key =>
      simp only [List.map_cons, List.map_nil, List.cons.injEq, and_true] at he
      obtain ⟨rfl, rfl, rfl, rfl, rfl, rfl, rfl⟩ := he
      refine ⟨a1, b1, c1, x1, y1, z1, d1, rfl, ?_, ?_, ?_, ?_, ?_, ?_, ?_⟩
      · rw [← (key a1 (by simp)).1]; exact ha
      · rw [← (key b1 (by simp)).1]; exact hb
      · rw [← (key c1 (by simp)).1]; exact hc
      · rw [← (key x1 (by simp)).2]; exact hx
      · rw [← (key y1 (by simp)).2]; exact hy
      · rw [← (key z1 (by simp)).2]; exact hz
      · rw [← (key d1 (by simp)).1]; exact hd
  · rintro ⟨a, b, c, x, y, z, d, rfl, ha, hb, hc, hx, hy, hz, hd⟩
    refine ⟨a.toUpper, b.toUpper, c.toUpper, x.toUpper, y.toUpper, z.toUpper, d.toUpper,
      rfl, ?_, ?_, ?_, ?_, ?_, ?_, ?_⟩
    · rw [(key a (by simp)).1]; exact ha
    · rw [(key b (by simp)).1]; exact hb
    · rw [(key c (by simp)).1]; exact hc
    · rw [(key x (by simp)).2]; exact hx
    · rw [(key y (by simp)).2]; exact hy
    · rw [(key z (by simp)).2]; exact hz
    · rw [(key d (by simp)).1]; exact hd

theorem isWhiteSpace_of_isAlpha (c : Char) (h : c.isAlpha = true) : isWhiteSpace c = false := by
  have := (isAlpha_iff c).1 h
  cases hw : isWhiteSpace c with
  | false => rfl
  | true =>
    simp only [isWhiteSpace, Bool.or_eq_true, Bool.and_eq_true, decide_eq_true_eq,
      beq_iff_eq] at hw
    omega

theorem trim_of_isPlate (u : JSString) (h : IsPlate u) : trim u = u := by
  obtain ⟨a, b, c, x, y, z, d, rfl, ha, -, -, -, -, -, hd⟩ := h
  have h1 := isWhiteSpace_of_isAlpha a ha
  have h2 := isWhiteSpace_of_isAlpha d hd
  unfold trim
  have hdrop : [a, b, c, x, y, z, d].dropWhile isWhiteSpace = [a, b, c, x, y, z, d] := by
    simp [List.dropWhile, h1]
  rw [hdrop, List.rdropWhile_eq_self_iff]
  intro _
  simp [h2]

theorem validateForm_carPlate (form : CheckInForm) (p : JSString)
    (hother : (form.withCarPlate []).validateForm = none) :
    (form.withCarPlate p).validateForm =
      if !p.isEmpty && !test carPlateRegex (toUpperCase p) then
        some ValidationError.invalidPlate
      else none := by
  cases form with
  | mobile f =>
    simp only [CheckInForm.withCarPlate, CheckInForm.validateForm, Mobile.validateForm]
      at hother ⊢
    split_ifs at hother with h1 h2 h3 h4
    rw [if_neg h1, if_neg h2, if_neg h3]
  | web f =>
    simp only [CheckInForm.withCarPlate, CheckInForm.validateForm, Web.validateForm]
      at hother ⊢
    split_ifs at hother with h1 h2 h3
    rw [if_neg h1, if_neg h2]

theorem validateForm_withCarPlate_iff (form : CheckInForm) (p : JSString)
    (hother : (form.withCarPlate []).validateForm = none) (hp : p ≠ []) :
    (form.withCarPlate p).validateForm = none ↔
      test carPlateRegex (toUpperCase p) = true := by
  have hne : p.isEmpty = false := by
    cases p with
    | nil => exact absurd rfl hp
    | cons a l => rfl
  rw [validateForm_carPlate form p hother]
  cases ht : test carPlateRegex (toUpperCase p) <;> simp [hne]

theorem withCarPlate_carPlate (form : CheckInForm) : form.withCarPlate form.carPlate = form := by
  cases form <;> rfl

theorem validateForm_none_withCarPlate (form : CheckInForm) (h : form.validateForm = none) :
    (form.withCarPlate []).validateForm = none := by
  cases form with
  | mobile f =>
    simp only [CheckInForm.withCarPlate, CheckInForm.validateForm, Mobile.validateForm]
      at h ⊢
    split_ifs at h with h1 h2 h3 h4
    rw [if_neg h1, if_neg h2, if_neg h3]
    simp
  | web f =>
    simp only [CheckInForm.withCarPlate, CheckInForm.validateForm, Web.validateForm]
      at h ⊢
    split_ifs at h with h1 h2 h3
    rw [if_neg h1, if_neg h2]
    simp

/-! ## Names -/

theorem trim_eq_nil_iff (s : JSString) : trim s = [] ↔ s.all isWhiteSpace = true := by
  unfold trim
  rw [List.rdropWhile_eq_nil_iff, List.all_eq_true]
  constructor
  · intro h
    have hnil : s.dropWhile isWhiteSpace = [] := by
      cases hd : s.dropWhile isWhiteSpace with
      | nil => rfl
      | cons a l =>
        have hne : s.dropWhile isWhiteSpace ≠ [] := by rw [hd]; simp
        have h1 := List.head_dropWhile_not isWhiteSpace s hne
        have h2 := h _ (List.head_mem hne)
        rw [h2] at h1
        exact absurd h1 (by simp)
    exact List.dropWhile_eq_nil_iff.1 hnil
  · intro h x hx
    rw [List.dropWhile_eq_nil_iff.2 h] at hx
    exact absurd hx (List.not_mem_nil _)

theorem mobileNumber_test_false_iff (m : JSString) :
    (m.isEmpty || !test mobileNumberRegex m) = false ↔ IsMobileNumber m := by
  rw [← mobileNumberRegex_test_iff]
  constructor
  · intro h
    simp only [Bool.or_eq_false_iff, Bool.not_eq_false'] at h
    exact h.2
  · intro h
    have hne : m.isEmpty = false := by
      cases m with
      | nil => exact absurd h (by decide)
      | cons a l => rfl
    simp [h, hne]

theorem validateForm_names (form : CheckInForm)
    (hid : form.idNumber.length = 8 ∧ form.idNumber.all Char.isDigit = true)
    (hmobile : ∀ formData, form = CheckInForm.mobile formData →
      IsMobileNumber formData.mobileNumber) :
    form.validateForm =
      if (trim form.firstName).isEmpty || (trim form.lastName).isEmpty then
        some ValidationError.missingName
      else if !form.carPlate.isEmpty &&
          !test carPlateRegex (toUpperCase form.carPlate) then
        some ValidationError.invalidPlate
      else none := by
  have hidf := (idNumber_test_false_iff form.idNumber).2 hid
  cases form with
  | mobile f =>
    have hm := (mobileNumber_test_false_iff f.mobileNumber).2 (hmobile f rfl)
    simp only [CheckInForm.idNumber] at hidf
    simp only [CheckInForm.validateForm, Mobile.validateForm, CheckInForm.firstName,
      CheckInForm.lastName, CheckInForm.carPlate]
    rw [if_neg (by simp [hidf]), if_neg (by simp [hm])]
  | web f =>
    simp only [CheckInForm.idNumber] at hidf
    simp only [CheckInForm.validateForm, Web.validateForm, CheckInForm.firstName,
      CheckInForm.lastName, CheckInForm.carPlate]
    rw [if_neg (by simp [hidf])]

/-! ## Records along a sequence of operations -/

theorem mem_addDoc (a d : VisitRecord) (store : Store) :
    a ∈ addDoc d store ↔ a = d ∨ a ∈ store := by
  unfold addDoc
  rw [(List.perm_orderedInsert _ d store).mem_iff, List.mem_cons]

theorem mem_updateDoc (a : VisitRecord) (id : DocId) (now : Timestamp) (store : Store) :
    a ∈ updateDoc id now store ↔
      ∃ d ∈ store, a = if d.id = id then
        { d with timeOut := some now, status := Status.left } else d := by
  unfold updateDoc
  rw [List.mem_map]
  constructor
  · rintro ⟨d, hd, rfl⟩
    exact ⟨d, hd, rfl⟩
  · rintro ⟨d, hd, rfl⟩
    exact ⟨d, hd, rfl⟩

/-- What an operation does to the store: nothing, one insert of a fresh open visit, or one
update. -/
theorem run_cases (op : Op) (store : Store) :
    op.run store = store ∨
    (∃ d : VisitRecord, op.run store = addDoc d store ∧ d.timeIn = op.now ∧
      d.timeOut = none ∧ d.status = Status.inside) ∨
    (∃ first : VisitRecord, first ∈ store ∧ first.status = Status.inside ∧
      op.run store = updateDoc first.id op.now store) := by
  have hin : ∀ (form : CheckInForm) (now : Timestamp) (newId : DocId),
      (form.handleCheckIn now newId store).2 = store ∨
      (∃ d : VisitRecord, (form.handleCheckIn now newId store).2 = addDoc d store ∧
        d.timeIn = now ∧ d.timeOut = none ∧ d.status = Status.inside) := by
    intro form now newId
    rw [handleCheckIn_eq]
    cases form.validateForm with
    | some e => exact Or.inl rfl
    | none =>
      cases hq : getDocsInside form.idNumber store with
      | cons a l => exact Or.inl rfl
      | nil =>
        obtain ⟨-, -, -, -, -, h6, h7, h8, -⟩ := newDoc_fields form now newId
        exact Or.inr ⟨form.newDoc now newId, rfl, h6, h7, h8⟩
  have hout : ∀ (client : Client) (searchId : JSString) (now : Timestamp),
      (client.handleCheckOut searchId now store).2 = store ∨
      (∃ first : VisitRecord, first ∈ store ∧ first.status = Status.inside ∧
        (client.handleCheckOut searchId now store).2 = updateDoc first.id now store) := by
    intro client searchId now
    rw [handleCheckOut_eq]
    split_ifs
    · exact Or.inl rfl
    · cases hq : getDocsInside searchId store with
      | nil => exact Or.inl rfl
      | cons a l =>
        have hmem : a ∈ getDocsInside searchId store := by
          rw [hq]; exact List.mem_cons_self _ _
        have := List.mem_filter.1 hmem
        exact Or.inr ⟨a, this.1, (of_decide_eq_true this.2).2, rfl⟩
  cases op with
  | mobileCheckIn f now newId =>
    rcases hin (CheckInForm.mobile f) now newId with h | h
    · exact Or.inl h
    · exact Or.inr (Or.inl h)
  | webCheckIn f now newId =>
    rcases hin (CheckInForm.web f) now newId with h | h
    · exact Or.inl h
    · exact Or.inr (Or.inl h)
  | mobileCheckOut searchId now =>
    rcases hout Client.mobile searchId now with h | h
    · exact Or.inl h
    · exact Or.inr (Or.inr h)
  | webCheckOut searchId now =>
    rcases hout Client.web searchId now with h | h
    · exact Or.inl h
    · exact Or.inr (Or.inr h)

theorem run_keeps_timeOut_iff_left (op : Op) (store : Store)
    (h : ∀ d ∈ store, (d.timeOut ≠ none ↔ d.status = Status.left)) :
    ∀ d ∈ op.run store, (d.timeOut ≠ none ↔ d.status = Status.left) := by
  rcases run_cases op store with hr | ⟨a, hr, -, h2, h3⟩ | ⟨first, -, -, hr⟩
  · rw [hr]; exact h
  · rw [hr]
    intro d hd
    rcases (mem_addDoc d a store).1 hd with rfl | hd
    · simp [h2, h3]
    · exact h d hd
  · rw [hr]
    intro d hd
    obtain ⟨e, he, rfl⟩ := (mem_updateDoc d _ _ store).1 hd
    split_ifs
    · simp
    · exact h e he

theorem runOps_keeps_timeOut_iff_left (ops : List Op) (store : Store)
    (h : ∀ d ∈ store, (d.timeOut ≠ none ↔ d.status = Status.left)) :
    ∀ d ∈ runOps ops store, (d.timeOut ≠ none ↔ d.status = Status.left) := by
  induction ops generalizing store with
  | nil => exact h
  | cons op ops ih => exact ih (op.run store) (run_keeps_timeOut_iff_left op store h)

theorem run_keeps_times (op : Op) (store : Store) (bound : Timestamp)
    (hbound : bound ≤ op.now)
    (h : ∀ d ∈ store, d.timeIn ≤ bound ∧ ∀ t, d.timeOut = some t → d.timeIn ≤ t) :
    ∀ d ∈ op.run store, d.timeIn ≤ op.now ∧ ∀ t, d.timeOut = some t → d.timeIn ≤ t := by
  rcases run_cases op store with hr | ⟨a, hr, h1, h2, -⟩ | ⟨first, -, -, hr⟩
  · rw [hr]
    intro d hd
    exact ⟨le_trans (h d hd).1 hbound, (h d hd).2⟩
  · rw [hr]
    intro d hd
    rcases (mem_addDoc d a store).1 hd with rfl | hd
    · refine ⟨le_of_eq h1, ?_⟩
      intro t ht
      rw [h2] at ht
      exact absurd ht (by simp)
    · exact ⟨le_trans (h d hd).1 hbound, (h d hd).2⟩
  · rw [hr]
    intro d hd
    obtain ⟨e, he, rfl⟩ := (mem_updateDoc d _ _ store).1 hd
    have hle : e.timeIn ≤ op.now := le_trans (h e he).1 hbound
    split_ifs
    · refine ⟨hle, ?_⟩
      intro t ht
      have : op.now = t := by simpa using ht
      rw [← this]
      exact hle
    · exact ⟨hle, (h e he).2⟩

theorem runOps_keeps_times (ops : List Op) (store : Store) (bound : Timestamp)
    (hsorted : (ops.map Op.now).Sorted (· ≤ ·))
    (hbound : ∀ t ∈ ops.map Op.now, bound ≤ t)
    (h : ∀ d ∈ store, d.timeIn ≤ bound ∧ ∀ t, d.timeOut = some t → d.timeIn ≤ t) :
    ∀ d ∈ runOps ops store, ∀ t, d.timeOut = some t → d.timeIn ≤ t := by
  induction ops generalizing store bound with
  | nil => exact fun d hd => (h d hd).2
  | cons op ops ih =>
    rw [List.map_cons, List.sorted_cons] at hsorted
    exact ih (op.run store) op.now hsorted.2 hsorted.1
      (run_keeps_times op store bound (hbound _ (by simp)) h)

/-! ## The order of the views -/

theorem newerFirst_iff (a b : VisitRecord) :
    newerFirst a b = true ↔
      (b.timeIn : Nat) < a.timeIn ∨ ((b.timeIn : Nat) = a.timeIn ∧ (b.id : Nat) ≤ a.id) := by
  simp only [newerFirst, Bool.or_eq_true, Bool.and_eq_true, decide_eq_true_eq]

theorem lex_total (ta tb ia ib : Nat) :
    (tb < ta ∨ (tb = ta ∧ ib ≤ ia)) ∨ (ta < tb ∨ (ta = tb ∧ ia ≤ ib)) := by
  omega

theorem lex_trans (ta tb tc ia ib ic : Nat) (hab : tb < ta ∨ (tb = ta ∧ ib ≤ ia))
    (hbc : tc < tb ∨ (tc = tb ∧ ic ≤ ib)) : tc < ta ∨ (tc = ta ∧ ic ≤ ia) := by
  omega

theorem newerFirst_total (a b : VisitRecord) :
    newerFirst a b = true ∨ newerFirst b a = true := by
  rw [newerFirst_iff, newerFirst_iff]
  exact lex_total a.timeIn b.timeIn a.id b.id

theorem newerFirst_trans (a b c : VisitRecord) (hab : newerFirst a b = true)
    (hbc : newerFirst b c = true) : newerFirst a c = true := by
  rw [newerFirst_iff] at hab hbc ⊢
  exact lex_trans a.timeIn b.timeIn c.timeIn a.id b.id c.id hab hbc

theorem newerFirst_timeIn (a b : VisitRecord) (hab : newerFirst a b = true) :
    a.timeIn ≥ b.timeIn := by
  rw [newerFirst_iff] at hab
  rcases hab with h | ⟨h, -⟩
  · exact Nat.le_of_lt h
  · exact Nat.le_of_eq h

theorem sorted_insertionSort_newerFirst (l : List VisitRecord) :
    (l.insertionSort (fun a b => newerFirst a b = true)).Sorted
      (fun a b => newerFirst a b = true) :=
  @List.sorted_insertionSort VisitRecord (fun a b => newerFirst a b = true) _
    ⟨newerFirst_total⟩ ⟨newerFirst_trans⟩ l

theorem sorted_timeIn_of_sorted (l : List VisitRecord)
    (h : l.Sorted (fun a b => newerFirst a b = true)) :
    (l.map VisitRecord.timeIn).Sorted (· ≥ ·) := by
  unfold List.Sorted at h ⊢
  rw [List.pairwise_map]
  exact h.imp (fun {a b} hab => newerFirst_timeIn a b hab)

/-! ## Hours and minutes -/

theorem hours_minutes (d : Int) (hd : 0 ≤ d) :
    0 ≤ d / 3600000 ∧ 0 ≤ d % 3600000 / 60000 ∧ d % 3600000 / 60000 ≤ 59 ∧
      60 * (d / 3600000) + d % 3600000 / 60000 = d / 60000 := by
  omega

theorem append_m_ne_placeholder (xs : List Char) : xs ++ "m".toList ≠ "-".toList := by
  intro h
  have := congrArg List.getLast? h
  simp at this

/-! ## A check-out that finds a record -/

theorem handleCheckOut_of_query (client : Client) (searchId : JSString) (now : Timestamp)
    (store : Store) (first : VisitRecord) (rest : List VisitRecord)
    (hid : searchId.length = 8 ∧ searchId.all Char.isDigit = true)
    (hquery : getDocsInside searchId store = first :: rest) :
    client.handleCheckOut searchId now store =
      (CheckOutResult.success, updateDoc first.id now store) := by
  rw [handleCheckOut_eq, (idNumber_test_false_iff searchId).2 hid, hquery]
  rfl

theorem updateDoc_eq_map (first : VisitRecord) (now : Timestamp) (store : Store)
    (hnames : (store.map VisitRecord.id).Nodup) (hmem : first ∈ store) :
    updateDoc first.id now store =
      store.map (fun d =>
        if d = first then { first with timeOut := some now, status := Status.left }
        else d) := by
  unfold updateDoc
  apply List.map_congr_left
  intro d hd
  by_cases h : d = first
  · subst h; simp
  · have hne : d.id ≠ first.id := fun he =>
      h (List.inj_on_of_nodup_map hnames hd hmem he)
    simp [h, hne]

theorem updateDoc_perm (first : VisitRecord) (now : Timestamp) (store : Store)
    (hnames : (store.map VisitRecord.id).Nodup) (hmem : first ∈ store) :
    (updateDoc first.id now store).Perm
      ({ first with timeOut := some now, status := Status.left } :: store.erase first) := by
  rw [updateDoc_eq_map first now store hnames hmem]
  have hnodup : store.Nodup := List.Nodup.of_map _ hnames
  have hperm := (List.perm_cons_erase hmem).map (fun d =>
    if d = first then { first with timeOut := some now, status := Status.left } else d)
  rw [List.map_cons, if_pos rfl] at hperm
  have hrest : (store.erase first).map (fun d =>
      if d = first then { first with timeOut := some now, status := Status.left } else d) =
      store.erase first := by
    conv_rhs => rw [← List.map_id (store.erase first)]
    apply List.map_congr_left
    intro d hd
    have hne : d ≠ first := ((List.Nodup.mem_erase_iff hnodup).1 hd).1
    simp [hne]
  rw [hrest] at hperm
  exact hperm

/-! ## The records a check-in writes -/

theorem trim_isTrimmedName (s : JSString) (h : trim s ≠ []) : IsTrimmedName (trim s) := by
  refine ⟨h, ?_, ?_⟩
  · intro c hc
    have hpre : trim s <+: s.dropWhile isWhiteSpace := List.rdropWhile_prefix _ _
    have hne : s.dropWhile isWhiteSpace ≠ [] := by
      intro h0
      unfold trim at h
      rw [h0] at h
      exact h rfl
    have hhead := List.IsPrefix.head hpre h
    have hnot := List.head_dropWhile_not isWhiteSpace s hne
    rw [List.head?_eq_head h, Option.some.injEq] at hc
    rw [← hc, hhead]
    exact hnot
  · intro c hc
    have hlast := List.rdropWhile_last_not isWhiteSpace (s.dropWhile isWhiteSpace) h
    rw [List.getLast?_eq_getLast _ h, Option.some.injEq] at hc
    rw [← hc]
    cases hw : isWhiteSpace ((trim s).getLast h) with
    | false => rfl
    | true => exact absurd hw hlast

theorem validateForm_none_names (form : CheckInForm) (h : form.validateForm = none) :
    trim form.firstName ≠ [] ∧ trim form.lastName ≠ [] := by
  have key : ∀ a b : JSString, ¬ ((trim a).isEmpty || (trim b).isEmpty) = true →
      trim a ≠ [] ∧ trim b ≠ [] := by
    intro a b hab
    constructor
    · intro h0; rw [h0] at hab; simp at hab
    · intro h0; rw [h0] at hab; simp at hab
  cases form with
  | mobile f =>
    simp only [CheckInForm.validateForm, Mobile.validateForm] at h
    split_ifs at h with h1 h2 h3 h4
    exact key _ _ h3
  | web f =>
    simp only [CheckInForm.validateForm, Web.validateForm] at h
    split_ifs at h with h1 h2 h3
    exact key _ _ h2

theorem newDoc_carPlate (form : CheckInForm) (now : Timestamp) (newId : DocId)
    (hvalid : form.validateForm = none) :
    (form.newDoc now newId).carPlate = none ∨
      ∃ p, (form.newDoc now newId).carPlate = some p ∧ IsUpperPlate p := by
  have h5 := (newDoc_fields form now newId).2.2.2.2.1
  by_cases hp : form.carPlate = []
  · left
    rw [h5, hp]
    rfl
  · right
    have hv := hvalid
    rw [← withCarPlate_carPlate form] at hv
    have hplate := (carPlateRegex_test_iff _).1
      ((validateForm_withCarPlate_iff form form.carPlate
        (validateForm_none_withCarPlate form hvalid) hp).1 hv)
    refine ⟨toUpperCase form.carPlate, ?_, (isPlate_toUpperCase_iff _).1 hplate⟩
    rw [h5, trim_of_isPlate _ hplate]
    obtain ⟨a, b, c, x, y, z, d, he, -⟩ := hplate
    rw [he]
    rfl

theorem newDoc_wellFormed (form : CheckInForm) (now : Timestamp) (newId : DocId)
    (hvalid : form.validateForm = none) : IsWellFormedRecord (form.newDoc now newId) := by
  obtain ⟨-, h2, h3, h4, -⟩ := newDoc_fields form now newId
  obtain ⟨hf, hl⟩ := validateForm_none_names form hvalid
  refine ⟨?_, ?_, ?_, newDoc_carPlate form now newId hvalid⟩
  · rw [h2]
    exact (idNumber_test_false_iff _).1 (validateForm_none_idNumber form hvalid)
  · rw [h3]
    exact trim_isTrimmedName _ hf
  · rw [h4]
    exact trim_isTrimmedName _ hl

/-- What an operation does to the store, with the form behind an insert. -/
theorem run_insert_cases (op : Op) (store : Store) :
    op.run store = store ∨
    (∃ (form : CheckInForm) (newId : DocId), form.validateForm = none ∧
      op.run store = addDoc (form.newDoc op.now newId) store) ∨
    (∃ first : VisitRecord, first ∈ store ∧ first.status = Status.inside ∧
      op.run store = updateDoc first.id op.now store) := by
  have hin : ∀ (form : CheckInForm) (now : Timestamp) (newId : DocId),
      (form.handleCheckIn now newId store).2 = store ∨
      (form.validateForm = none ∧
        (form.handleCheckIn now newId store).2 = addDoc (form.newDoc now newId) store) := by
    intro form now newId
    rw [handleCheckIn_eq]
    cases hv : form.validateForm with
    | some e => exact Or.inl rfl
    | none =>
      cases hq : getDocsInside form.idNumber store with
      | cons a l => exact Or.inl rfl
      | nil => exact Or.inr ⟨rfl, rfl⟩
  have hout : ∀ (client : Client) (searchId : JSString) (now : Timestamp),
      (client.handleCheckOut searchId now store).2 = store ∨
      (∃ first : VisitRecord, first ∈ store ∧ first.status = Status.inside ∧
        (client.handleCheckOut searchId now store).2 = updateDoc first.id now store) := by
    intro client searchId now
    rw [handleCheckOut_eq]
    split_ifs
    · exact Or.inl rfl
    · cases hq : getDocsInside searchId store with
      | nil => exact Or.inl rfl
      | cons a l =>
        have hmem : a ∈ getDocsInside searchId store := by
          rw [hq]; exact List.mem_cons_self _ _
        have := List.mem_filter.1 hmem
        exact Or.inr ⟨a, this.1, (of_decide_eq_true this.2).2, rfl⟩
  cases op with
  | mobileCheckIn f now newId =>
    rcases hin (CheckInForm.mobile f) now newId with h | ⟨h1, h2⟩
    · exact Or.inl h
    · exact Or.inr (Or.inl ⟨CheckInForm.mobile f, newId, h1, h2⟩)
  | webCheckIn f now newId =>
    rcases hin (CheckInForm.web f) now newId with h | ⟨h1, h2⟩
    · exact Or.inl h
    · exact Or.inr (Or.inl ⟨CheckInForm.web f, newId, h1, h2⟩)
  | mobileCheckOut searchId now =>
    rcases hout Client.mobile searchId now with h | h
    · exact Or.inl h
    · exact Or.inr (Or.inr h)
  | webCheckOut searchId now =>
    rcases hout Client.web searchId now with h | h
    · exact Or.inl h
    · exact Or.inr (Or.inr h)

theorem run_keeps_wellFormed (op : Op) (store : Store)
    (h : ∀ d ∈ store, IsWellFormedRecord d) : ∀ d ∈ op.run store, IsWellFormedRecord d := by
  rcases run_insert_cases op store with hr | ⟨form, newId, hv, hr⟩ | ⟨first, -, -, hr⟩
  · rw [hr]; exact h
  · rw [hr]
    intro d hd
    rcases (mem_addDoc d _ store).1 hd with rfl | hd
    · exact newDoc_wellFormed form op.now newId hv
    · exact h d hd
  · rw [hr]
    intro d hd
    obtain ⟨e, he, rfl⟩ := (mem_updateDoc d _ _ store).1 hd
    split_ifs
    · exact h e he
    · exact h e he

theorem runOps_keeps_wellFormed (ops : List Op) (store : Store)
    (h : ∀ d ∈ store, IsWellFormedRecord d) :
    ∀ d ∈ runOps ops store, IsWellFormedRecord d := by
  induction ops generalizing store with
  | nil => exact h
  | cons op ops ih => exact ih (op.run store) (run_keeps_wellFormed op store h)

/-! ## The stored mobile number -/

theorem replaceCountryCode_of_prefix (d : List Char) :
    replaceCountryCode ("+254".toList ++ d) = "254".toList ++ d ∧
    replaceCountryCode ("254".toList ++ d) = "254".toList ++ d ∧
    replaceCountryCode ("0".toList ++ d) = "254".toList ++ d := by
  refine ⟨?_, ?_, ?_⟩ <;> simp [replaceCountryCode, List.isPrefixOf]

theorem replaceCountryCode_of_subscriber (d : List Char)
    (hhead : d.head? = some '1' ∨ d.head? = some '7') : replaceCountryCode d = d := by
  cases d with
  | nil => simp at hhead
  | cons c w =>
    simp only [List.head?_cons, Option.some.injEq] at hhead
    rcases hhead with rfl | rfl <;> simp [replaceCountryCode, List.isPrefixOf]

theorem validateForm_none_mobileNumber (formData : Mobile.FormData)
    (h : Mobile.validateForm formData = none) : IsMobileNumber formData.mobileNumber := by
  unfold Mobile.validateForm at h
  split_ifs at h with h1 h2 h3 h4
  apply (mobileNumber_test_false_iff _).1
  simpa using h2

theorem mobile_validateForm_eq_web (formData : Mobile.FormData)
    (hmobile : IsMobileNumber formData.mobileNumber) :
    Mobile.validateForm formData = Web.validateForm formData.toWeb := by
  have hm := (mobileNumber_test_false_iff formData.mobileNumber).2 hmobile
  unfold Mobile.validateForm Web.validateForm Mobile.FormData.toWeb
  simp only [hm, Bool.false_eq_true, if_false]

/-! ## Negative durations -/

theorem tmod_of_neg (d : Int) (hd : d < 0) : Int.tmod d 3600000 = -((-d) % 3600000) := by
  obtain ⟨n, rfl⟩ := Int.eq_negSucc_of_lt_zero hd
  have h1 : Int.tmod (Int.negSucc n) 3600000 = -(((n + 1) % 3600000 : Nat) : Int) := rfl
  rw [h1, Int.neg_negSucc]
  norm_cast

theorem neg_hours_minutes (d : Int) (hd : d < 0) :
    d / 3600000 < 0 ∧ -60 ≤ -((-d) % 3600000) / 60000 ∧ -((-d) % 3600000) / 60000 ≤ 0 := by
  omega

/-! ## Arithmetic on doubles -/

theorem floor_le_roundHalfEven (x : ℚ) : ⌊x⌋ ≤ roundHalfEven x := by
  unfold roundHalfEven
  split_ifs <;> omega

theorem roundHalfEven_le_floor_add_one (x : ℚ) : roundHalfEven x ≤ ⌊x⌋ + 1 := by
  unfold roundHalfEven
  split_ifs <;> omega

theorem le_roundHalfEven (x : ℚ) (n : Int) (h : (n : ℚ) ≤ x) : n ≤ roundHalfEven x :=
  le_trans (Int.le_floor.2 h) (floor_le_roundHalfEven x)

theorem roundHalfEven_le_add_half (x : ℚ) : (roundHalfEven x : ℚ) ≤ x + 1 / 2 := by
  have h1 := Int.floor_le x
  unfold roundHalfEven
  split_ifs with ha hb hc
  · linarith
  · push_cast; linarith
  · linarith
  · push_cast
    have : x - ⌊x⌋ = 1 / 2 := le_antisymm (not_lt.1 hb) (not_lt.1 ha)
    linarith

theorem roundHalfEven_intCast (n : Int) : roundHalfEven (n : ℚ) = n := by
  unfold roundHalfEven
  simp

theorem ulp_pos (q : ℚ) : (0 : ℚ) < 2 ^ (Int.log 2 |q| - 52) := by positivity

theorem ulp_le (q : ℚ) (hq : q ≠ 0) : (2 : ℚ) ^ (Int.log 2 |q| - 52) ≤ |q| / 2 ^ 52 := by
  have h := Int.zpow_log_le_self (b := 2) (by norm_num) (abs_pos.2 hq)
  rw [zpow_sub₀ (by norm_num : (2 : ℚ) ≠ 0)]
  have : ((2 : ℕ) : ℚ) = 2 := by norm_num
  rw [this] at h
  have h52 : (2 : ℚ) ^ (52 : ℤ) = 2 ^ 52 := by norm_cast
  rw [h52]
  exact div_le_div_of_nonneg_right h (by positivity)

theorem ulp_inv_nat (q : ℚ) (hq : q ≠ 0) (hlt : |q| < 2 ^ 53) :
    ∃ j : ℕ, (2 : ℚ) ^ (Int.log 2 |q| - 52) * 2 ^ j = 1 := by
  have hlog : Int.log 2 |q| < 53 := by
    rw [← Int.lt_zpow_iff_log_lt (by norm_num) (abs_pos.2 hq)]
    have : ((2 : ℕ) : ℚ) ^ (53 : ℤ) = 2 ^ 53 := by norm_cast
    rw [this]
    exact hlt
  refine ⟨(52 - Int.log 2 |q|).toNat, ?_⟩
  have hnn : 0 ≤ 52 - Int.log 2 |q| := by omega
  rw [← zpow_natCast, Int.toNat_of_nonneg hnn, ← zpow_add₀ (by norm_num : (2 : ℚ) ≠ 0)]
  have : Int.log 2 |q| - 52 + (52 - Int.log 2 |q|) = 0 := by ring
  rw [this, zpow_zero]

/-- The floor of a rounded quotient is the floor of the quotient when the quotient is below
the next integer by more than half the spacing of doubles. -/
theorem floor_toDouble (q : ℚ) (k : Int) (hk : (k : ℚ) ≤ q) (hlt : |q| < 2 ^ 53)
    (hgap : q + |q| / 2 ^ 53 < k + 1) : ⌊toDouble q⌋ = k := by
  rw [Int.floor_eq_iff]
  unfold toDouble
  split_ifs with h0
  · subst h0
    simp only [abs_zero, zero_div, add_zero] at hgap
    constructor
    · exact hk
    · exact hgap
  · obtain ⟨j, hj⟩ := ulp_inv_nat q h0 hlt
    have hu := ulp_pos q
    have hle := ulp_le q h0
    generalize (2 : ℚ) ^ (Int.log 2 |q| - 52) = u at hj hu hle ⊢
    have hqu : q / u = q * 2 ^ j := by
      field_simp
      rw [mul_assoc, mul_comm ((2 : ℚ) ^ j) u, hj, mul_one]
    constructor
    · have h1 : (k * 2 ^ j : Int) ≤ roundHalfEven (q / u) := by
        apply le_roundHalfEven
        rw [hqu]
        push_cast
        exact mul_le_mul_of_nonneg_right hk (by positivity)
      have h2 : ((k * 2 ^ j : Int) : ℚ) * u ≤ (roundHalfEven (q / u) : ℚ) * u :=
        mul_le_mul_of_nonneg_right (by exact_mod_cast h1) hu.le
      have h3 : ((k * 2 ^ j : Int) : ℚ) * u = k := by
        push_cast
        rw [mul_assoc, mul_comm ((2 : ℚ) ^ j) u, hj, mul_one]
      rw [h3] at h2
      exact h2
    · have h1 := roundHalfEven_le_add_half (q / u)
      have h2 : (roundHalfEven (q / u) : ℚ) * u ≤ (q / u + 1 / 2) * u :=
        mul_le_mul_of_nonneg_right h1 hu.le
      have h3 : (q / u + 1 / 2) * u = q + u / 2 := by
        field_simp
        ring
      rw [h3] at h2
      have h4 : u / 2 ≤ |q| / 2 ^ 53 := by
        have : |q| / 2 ^ 53 = (|q| / 2 ^ 52) / 2 := by
          rw [div_div]; norm_num
        rw [this]
        exact div_le_div_of_nonneg_right hle (by norm_num)
      linarith


/-- The floor of the rounded quotient of an integer by a positive integer is the integer
quotient, for a dividend that is a double below 2 ^ 54 in magnitude. -/
theorem floor_toDouble_div (d m : Int) (hm : 2 ≤ m)
    (hd : |d| < 2 ^ 53 ∨ (|d| < 2 ^ 54 ∧ d % 2 = 0 ∧ m % 2 = 0)) :
    ⌊toDouble ((d : ℚ) / (m : ℚ))⌋ = d / m := by
  have hmpos : (0 : ℚ) < m := by exact_mod_cast (by omega : (0 : Int) < m)
  have hdm : d = m * (d / m) + d % m := (Int.ediv_add_emod d m).symm
  have hr0 : 0 ≤ d % m := Int.emod_nonneg d (by omega)
  have hrm : d % m < m := Int.emod_lt_of_pos d (by omega)
  have hdq : (d : ℚ) = m * ((d / m : Int) : ℚ) + ((d % m : Int) : ℚ) := by exact_mod_cast hdm
  -- the distance to the next multiple of m exceeds |d| / 2 ^ 53
  have hgapInt : |d| < 2 ^ 53 * (m - d % m) := by
    rcases hd with h | ⟨h, he, hme⟩
    · have : 1 ≤ m - d % m := by omega
      calc |d| < 2 ^ 53 := h
        _ = 2 ^ 53 * 1 := by norm_num
        _ ≤ 2 ^ 53 * (m - d % m) := by
          apply mul_le_mul_of_nonneg_left this (by norm_num)
    · have hev : (d % m) % 2 = 0 := by
        have := Int.emod_emod_of_dvd d (Int.dvd_of_emod_eq_zero hme)
        omega
      have : 2 ≤ m - d % m := by omega
      calc |d| < 2 ^ 54 := h
        _ = 2 ^ 53 * 2 := by norm_num
        _ ≤ 2 ^ 53 * (m - d % m) := by
          apply mul_le_mul_of_nonneg_left this (by norm_num)
  have hgapQ : (|d| : ℚ) < 2 ^ 53 * ((m : ℚ) - ((d % m : Int) : ℚ)) := by
    have := (Int.cast_lt (R := ℚ)).2 hgapInt
    push_cast at this
    exact this
  have habs : |(d : ℚ) / (m : ℚ)| = |(d : ℚ)| / m := by
    rw [abs_div, abs_of_pos hmpos]
  have hdabs : |(d : ℚ)| < 2 ^ 54 := by
    have h54 : |d| < 2 ^ 54 := by
      rcases hd with h | ⟨h, -, -⟩
      · exact lt_trans h (by norm_num)
      · exact h
    have := (Int.cast_lt (R := ℚ)).2 h54
    push_cast at this
    exact this
  have hm2 : (2 : ℚ) ≤ m := by exact_mod_cast hm
  apply floor_toDouble
  · rw [le_div_iff₀ hmpos]
    have : (0 : ℚ) ≤ ((d % m : Int) : ℚ) := by exact_mod_cast hr0
    linarith
  · rw [habs, div_lt_iff₀ hmpos]
    have : (2 : ℚ) ^ 54 ≤ 2 ^ 53 * m := by nlinarith
    linarith
  · rw [habs]
    have h1 : (d : ℚ) / m + |(d : ℚ)| / m / 2 ^ 53 = ((d : ℚ) + |(d : ℚ)| / 2 ^ 53) / m := by
      field_simp
      ring
    rw [h1, div_lt_iff₀ hmpos]
    have h2 : |(d : ℚ)| / 2 ^ 53 < (m : ℚ) - ((d % m : Int) : ℚ) := by
      rw [div_lt_iff₀ (by positivity)]
      linarith
    linarith


theorem truncate_intCast_div (d m : Int) (hm : 0 < m) :
    truncate ((d : ℚ) / (m : ℚ)) = Int.tdiv d m := by
  have hmpos : (0 : ℚ) < m := by exact_mod_cast hm
  have hfloor : ∀ a : Int, ⌊(a : ℚ) / (m : ℚ)⌋ = a / m := by
    intro a
    have := Rat.floor_intCast_div_natCast a m.toNat
    have hcast : ((m.toNat : ℕ) : Int) = m := Int.toNat_of_nonneg hm.le
    have hq : ((m.toNat : ℕ) : ℚ) = (m : ℚ) := by
      have : (((m.toNat : ℕ) : Int) : ℚ) = (m : ℚ) := by rw [hcast]
      exact_mod_cast this
    rw [hq, hcast] at this
    exact this
  unfold truncate
  split_ifs with h
  · have hd : 0 ≤ d := by
      have : (0 : ℚ) ≤ d := by
        by_contra hneg
        push_neg at hneg
        exact absurd h (not_le.2 (div_neg_of_neg_of_pos hneg hmpos))
      exact_mod_cast this
    rw [hfloor, Int.tdiv_eq_ediv hd hm.le]
  · have hd : d < 0 := by
      have : (d : ℚ) < 0 := by
        by_contra hnn
        push_neg at hnn
        exact h (div_nonneg hnn hmpos.le)
      exact_mod_cast this
    have hceil : ⌈(d : ℚ) / (m : ℚ)⌉ = -⌊((-d : Int) : ℚ) / (m : ℚ)⌋ := by
      rw [← Int.ceil_neg]
      congr 1
      push_cast
      ring
    have hnn : 0 ≤ -d := by omega
    rw [hceil, hfloor, ← Int.tdiv_eq_ediv hnn hm.le, Int.neg_tdiv, neg_neg]


theorem remainder_intCast (d m : Int) (hm : 0 < m) :
    remainder (d : ℚ) (m : ℚ) = ((Int.tmod d m : Int) : ℚ) := by
  unfold remainder
  rw [truncate_intCast_div d m hm, Int.tmod_def]
  push_cast
  ring

theorem roundHalfEven_half (x : Int) :
    roundHalfEven ((x : ℚ) / 2) =
      if x % 2 = 0 then x / 2 else if x / 2 % 2 = 0 then x / 2 else x / 2 + 1 := by
  have hfloor : ⌊(x : ℚ) / 2⌋ = x / 2 := by
    have := Rat.floor_intCast_div_natCast x 2
    simpa using this
  have hx : (x : ℚ) = 2 * ((x / 2 : Int) : ℚ) + ((x % 2 : Int) : ℚ) := by
    exact_mod_cast (Int.ediv_add_emod x 2).symm
  unfold roundHalfEven
  rw [hfloor]
  rcases Int.emod_two_eq_zero_or_one x with h | h
  · rw [h] at hx
    rw [if_pos h, if_pos]
    rw [hx]
    norm_num
  · rw [h] at hx
    have hne : ¬ x % 2 = 0 := by omega
    have hfrac : (x : ℚ) / 2 - ((x / 2 : Int) : ℚ) = 1 / 2 := by
      rw [hx]
      push_cast
      ring
    rw [if_neg hne, hfrac, if_neg (lt_irrefl _), if_neg (lt_irrefl _)]

theorem toDouble_intCast (x : Int) (hx : |x| < 2 ^ 54) :
    toDouble (x : ℚ) = ((nearestDouble x : Int) : ℚ) := by
  have habsQ : |(x : ℚ)| = ((|x| : Int) : ℚ) := by push_cast; rfl
  unfold toDouble nearestDouble
  by_cases h0 : x = 0
  · subst h0
    simp
  have hq0 : (x : ℚ) ≠ 0 := by exact_mod_cast h0
  rw [if_neg hq0]
  by_cases hsmall : |x| < 2 ^ 53
  · have hb := abs_lt.1 hsmall
    rw [if_pos ⟨by omega, by omega⟩]
    have hlt : |(x : ℚ)| < 2 ^ 53 := by
      rw [habsQ]
      exact_mod_cast hsmall
    obtain ⟨j, hj⟩ := ulp_inv_nat (x : ℚ) hq0 hlt
    generalize (2 : ℚ) ^ (Int.log 2 |(x : ℚ)| - 52) = u at hj ⊢
    have hu : u ≠ 0 := by
      intro h
      rw [h, zero_mul] at hj
      exact absurd hj (by norm_num)
    have hqu : (x : ℚ) / u = ((x * 2 ^ j : Int) : ℚ) := by
      push_cast
      field_simp
      rw [mul_assoc, mul_comm ((2 : ℚ) ^ j) u, hj, mul_one]
    rw [hqu, roundHalfEven_intCast]
    push_cast
    rw [mul_assoc, mul_comm ((2 : ℚ) ^ j) u, hj, mul_one]
  · have hbig : 2 ^ 53 ≤ |x| := not_lt.1 hsmall
    have hlog : Int.log 2 |(x : ℚ)| = 53 := by
      have hpos : (0 : ℚ) < |(x : ℚ)| := abs_pos.2 hq0
      have h1 : (53 : Int) ≤ Int.log 2 |(x : ℚ)| := by
        rw [← Int.zpow_le_iff_le_log (by norm_num) hpos, habsQ]
        have : ((2 : ℕ) : ℚ) ^ (53 : ℤ) = ((2 ^ 53 : Int) : ℚ) := by norm_cast
        rw [this]
        exact_mod_cast hbig
      have h2 : Int.log 2 |(x : ℚ)| < 54 := by
        rw [← Int.lt_zpow_iff_log_lt (by norm_num) hpos, habsQ]
        have : ((2 : ℕ) : ℚ) ^ (54 : ℤ) = ((2 ^ 54 : Int) : ℚ) := by norm_cast
        rw [this]
        exact_mod_cast hx
      omega
    rw [hlog]
    have hu : (2 : ℚ) ^ ((53 : ℤ) - 52) = 2 := by norm_num
    rw [hu, roundHalfEven_half]
    by_cases heq : -9007199254740992 ≤ x ∧ x ≤ 9007199254740992
    · rw [if_pos heq]
      have hev : x % 2 = 0 := by
        rcases abs_cases x with ⟨h, -⟩ | ⟨h, -⟩ <;> omega
      rw [if_pos hev]
      have : x = 2 * (x / 2) := by omega
      conv_rhs => rw [this]
      push_cast
      ring
    · rw [if_neg heq]
      push_cast
      ring

theorem nearestDouble_facts (x : Int)
    (hx : -17280000000000000 ≤ x ∧ x ≤ 17280000000000000) :
    (-9007199254740992 < nearestDouble x ∧ nearestDouble x < 9007199254740992 ∨
      (-18014398509481984 < nearestDouble x ∧ nearestDouble x < 18014398509481984 ∧
        nearestDouble x % 2 = 0)) ∧
    (0 ≤ x → 0 ≤ nearestDouble x) ∧ (x < 0 → nearestDouble x < 0) ∧
    (-9007199254740992 ≤ x ∧ x ≤ 9007199254740992 → nearestDouble x = x) := by
  unfold nearestDouble
  split_ifs <;> omega

theorem tmod_hour_bounds (d : Int) :
    -3600000 < Int.tmod d 3600000 ∧ Int.tmod d 3600000 < 3600000 := by
  rcases lt_or_ge d 0 with h | h
  · rw [tmod_of_neg d h]
    omega
  · rw [Int.tmod_eq_emod h (by norm_num)]
    omega

/-- On valid dates, `formatDuration` in integer arithmetic: the difference is rounded to
the nearest double, and the floors of the two rounded quotients are the integer
quotients. -/
theorem formatDuration_some (tIn tOut : Int) (hIn : IsDate tIn) (hOut : IsDate tOut) :
    formatDuration (some tIn) (some tOut) =
      numberToString (nearestDouble (tOut - tIn) / 3600000) ++ "h ".toList ++
        numberToString (Int.tmod (nearestDouble (tOut - tIn)) 3600000 / 60000) ++
        "m".toList := by
  obtain ⟨hIn1, hIn2⟩ := hIn
  obtain ⟨hOut1, hOut2⟩ := hOut
  have hrange : -17280000000000000 ≤ tOut - tIn ∧ tOut - tIn ≤ 17280000000000000 := by
    constructor <;> omega
  have habs : |tOut - tIn| < 2 ^ 54 := by
    rw [abs_lt]
    constructor <;> omega
  obtain ⟨hD, -, -, -⟩ := nearestDouble_facts (tOut - tIn) hrange
  have hdiff : toDouble ((tOut : ℚ) - (tIn : ℚ)) =
      ((nearestDouble (tOut - tIn) : Int) : ℚ) := by
    rw [← toDouble_intCast (tOut - tIn) habs]
    push_cast
    rfl
  have hhour : ((1000 : ℚ) * 60 * 60) = ((3600000 : Int) : ℚ) := by norm_num
  have hminute : ((1000 : ℚ) * 60) = ((60000 : Int) : ℚ) := by norm_num
  have hH : ⌊toDouble (((nearestDouble (tOut - tIn) : Int) : ℚ) / ((3600000 : Int) : ℚ))⌋ =
      nearestDouble (tOut - tIn) / 3600000 := by
    apply floor_toDouble_div _ _ (by norm_num)
    rcases hD with ⟨h1, h2⟩ | ⟨h1, h2, h3⟩
    · left
      rw [abs_lt]
      constructor <;> omega
    · right
      refine ⟨?_, h3, by norm_num⟩
      rw [abs_lt]
      constructor <;> omega
  have hM : ⌊toDouble (((Int.tmod (nearestDouble (tOut - tIn)) 3600000 : Int) : ℚ) /
      ((60000 : Int) : ℚ))⌋ = Int.tmod (nearestDouble (tOut - tIn)) 3600000 / 60000 := by
    apply floor_toDouble_div _ _ (by norm_num)
    left
    have := tmod_hour_bounds (nearestDouble (tOut - tIn))
    rw [abs_lt]
    constructor <;> omega
  simp only [formatDuration]
  rw [hdiff, hhour, hminute, remainder_intCast _ _ (by norm_num), hH, hM]

/-! ## Validation of the ID number -/

/-- C7: the ID-number check of `validateForm` (both clients) and of `handleCheckOut` (both
clients) accepts a string if and only if it is exactly 8 characters long and each
character is a decimal digit; `24807965` is accepted, and `2480796`, `2480796a`, `123` and
the empty string are rejected. -/
theorem idNumber_accepted_iff_eight_digits :
    (∀ s : JSString,
      (∀ m fn ln cp : JSString,
        Mobile.validateForm ⟨s, m, fn, ln, cp⟩ ≠ some ValidationError.invalidId ↔
          s.length = 8 ∧ s.all Char.isDigit = true) ∧
      (∀ fn ln cp : JSString,
        Web.validateForm ⟨s, fn, ln, cp⟩ ≠ some ValidationError.invalidId ↔
          s.length = 8 ∧ s.all Char.isDigit = true) ∧
      (∀ (client : Client) (now : Timestamp) (store : Store),
        (client.handleCheckOut s now store).1 ≠ CheckOutResult.invalidId ↔
          s.length = 8 ∧ s.all Char.isDigit = true)) ∧
    Web.validateForm ⟨"24807965".toList, "Edward".toList, "John".toList, []⟩ = none ∧
    Web.validateForm ⟨"2480796".toList, "Edward".toList, "John".toList, []⟩ =
      some ValidationError.invalidId ∧
    Web.validateForm ⟨"2480796a".toList, "Edward".toList, "John".toList, []⟩ =
      some ValidationError.invalidId ∧
    Web.validateForm ⟨"123".toList, "Edward".toList, "John".toList, []⟩ =
      some ValidationError.invalidId ∧
    Web.validateForm ⟨[], "Edward".toList, "John".toList, []⟩ =
      some ValidationError.invalidId := by
  refine ⟨fun s => ⟨?_, ?_, ?_⟩, by decide, by decide, by decide, by decide, by decide⟩
  · intro m fn ln cp
    rw [← idNumber_test_false_iff]
    unfold Mobile.validateForm
    cases h : (s.isEmpty || jsLength s != 8 || !test idNumberRegex s)
    · simp only [h, Bool.false_eq_true, if_false, iff_true]
      split_ifs <;> simp
    · simp [h]
  · intro fn ln cp
    rw [← idNumber_test_false_iff]
    unfold Web.validateForm
    cases h : (s.isEmpty || jsLength s != 8 || !test idNumberRegex s)
    · simp only [h, Bool.false_eq_true, if_false, iff_true]
      split_ifs <;> simp
    · simp [h]
  · intro client now store
    rw [← idNumber_test_false_iff]
    cases client
    · unfold Client.handleCheckOut Mobile.handleCheckOut
      cases h : (s.isEmpty || jsLength s != 8 || !test idNumberRegex s)
      · simp only [h, Bool.false_eq_true, if_false, iff_true]
        split <;> simp
      · simp [h]
    · unfold Client.handleCheckOut Web.handleCheckOut
      cases h : (s.isEmpty || jsLength s != 8 || !test idNumberRegex s)
      · simp only [h, Bool.false_eq_true, if_false, iff_true]
        split <;> simp
      · simp [h]

/-! ## Validation of the mobile number and of the car plate -/

/-- C10: on the mobile client, in a form whose idNumber is valid, validation accepts the
mobileNumber if and only if it is an optional prefix `254`, `+254` or `0` followed by
exactly 9 decimal digits of which the first is 1 or 7; otherwise it fails with
InvalidMobile, as it does on the empty string. -/
theorem mobileNumber_accepted_iff (formData : Mobile.FormData)
    (hid : formData.idNumber.length = 8 ∧ formData.idNumber.all Char.isDigit = true) :
    (Mobile.validateForm formData ≠ some ValidationError.invalidMobile ↔
      IsMobileNumber formData.mobileNumber) ∧
    (¬ IsMobileNumber formData.mobileNumber →
      Mobile.validateForm formData = some ValidationError.invalidMobile) ∧
    ¬ IsMobileNumber [] := by
  have hempty : ¬ IsMobileNumber [] := by
    rintro ⟨pre, d, he, -, hl, -, -⟩
    have := congrArg List.length he
    simp at this
    omega
  have hcond : (formData.mobileNumber.isEmpty ||
      !test mobileNumberRegex formData.mobileNumber) = false ↔
      IsMobileNumber formData.mobileNumber := by
    rw [← mobileNumberRegex_test_iff]
    constructor
    · intro h
      simp only [Bool.or_eq_false_iff, Bool.not_eq_false'] at h
      exact h.2
    · intro h
      have hne : formData.mobileNumber.isEmpty = false := by
        cases hm : formData.mobileNumber with
        | nil =>
          rw [hm] at h
          exact absurd ((mobileNumberRegex_test_iff []).1 h) hempty
        | cons a l => rfl
      simp [h, hne]
  have hidf := (idNumber_test_false_iff formData.idNumber).2 hid
  unfold Mobile.validateForm
  rw [if_neg (by simp [hidf])]
  refine ⟨?_, ?_, hempty⟩
  · rw [← hcond]
    cases hc : (formData.mobileNumber.isEmpty ||
        !test mobileNumberRegex formData.mobileNumber)
    · simp only [Bool.false_eq_true, if_false, iff_true]
      split_ifs <;> simp
    · simp
  · intro hnot
    rw [← hcond, Bool.not_eq_false] at hnot
    rw [if_pos hnot]

/-- Witness of C10: the number `0712345678` passes the mobile check. -/
theorem mobileNumber_accepted_iff_witness :
    Mobile.validateForm ⟨"24807965".toList, "0712345678".toList, "Edward".toList,
        "John".toList, []⟩ ≠ some ValidationError.invalidMobile ↔
      IsMobileNumber "0712345678".toList :=
  (mobileNumber_accepted_iff
    ⟨"24807965".toList, "0712345678".toList, "Edward".toList, "John".toList, []⟩
    (by decide)).1

/-- Counterexample to C8 as stated: with the other fields valid, the web client accepts
the non-empty car plate `ßm243t` (six characters, upper case `SSM243T`), which is not three
letters, three digits and one letter. -/
theorem carPlate_accepted_not_plate :
    ((CheckInForm.web ⟨"24807965".toList, "Edward".toList, "John".toList, []⟩).withCarPlate
      []).validateForm = none ∧
    [Char.ofNat 0xDF, 'm', '2', '4', '3', 't'] ≠ [] ∧
    ((CheckInForm.web ⟨"24807965".toList, "Edward".toList, "John".toList, []⟩).withCarPlate
      [Char.ofNat 0xDF, 'm', '2', '4', '3', 't']).validateForm = none ∧
    ¬ IsPlate [Char.ofNat 0xDF, 'm', '2', '4', '3', 't'] := by
  refine ⟨by decide, by decide, by decide, ?_⟩
  rintro ⟨a, b, c, x, y, z, d, he, -⟩
  have := congrArg List.length he
  simp at this

/-- C8, amended: for every non-empty carPlate string p, in a form whose other fields are
valid, validation accepts p if and only if the upper case of p is exactly three letters
`A`..`Z`, three decimal digits and one letter `A`..`Z`, and otherwise fails with
InvalidPlate; when p is made of ASCII characters, it is accepted if and only if p is
exactly three letters, three decimal digits and one letter, letters in either case. -/
theorem carPlate_accepted_iff (form : CheckInForm) (p : JSString)
    (hother : (form.withCarPlate []).validateForm = none) (hp : p ≠ []) :
    ((form.withCarPlate p).validateForm = none ↔ IsUpperPlate (toUpperCase p)) ∧
    ((form.withCarPlate p).validateForm ≠ none →
      (form.withCarPlate p).validateForm = some ValidationError.invalidPlate) ∧
    ((∀ c ∈ p, c.toNat < 128) → ((form.withCarPlate p).validateForm = none ↔ IsPlate p)) := by
  have hiff := validateForm_withCarPlate_iff form p hother hp
  refine ⟨?_, ?_, ?_⟩
  · rw [hiff, carPlateRegex_test_iff, isPlate_toUpperCase_iff]
  · intro _
    rw [validateForm_carPlate form p hother]
    split_ifs with h
    · rfl
    · rename_i hcontra
      rw [validateForm_carPlate form p hother, if_neg h] at hcontra
      exact absurd rfl hcontra
  · intro hascii
    rw [hiff, carPlateRegex_test_iff, toUpperCase_ascii p hascii,
      isPlate_map_toUpper_iff p hascii]

/-- Witness of C8, amended: the plate `kbm243t` is accepted. -/
theorem carPlate_accepted_iff_witness :
    ((CheckInForm.web ⟨"24807965".toList, "Edward".toList, "John".toList, []⟩).withCarPlate
      "kbm243t".toList).validateForm = none :=
  ((carPlate_accepted_iff
      (CheckInForm.web ⟨"24807965".toList, "Edward".toList, "John".toList, []⟩)
      "kbm243t".toList (by decide) (by decide)).2.2 (by decide)).2
    ⟨'k', 'b', 'm', '2', '4', '3', 't', rfl, by decide, by decide, by decide, by decide,
      by decide, by decide, by decide⟩

/-! ## Check-in -/

/-- C2: for every store and every form accepted by the validator, if the store holds a
record with the form's idNumber and status inside, check-in ends with AlreadyInside and
the store after it equals the store before. -/
theorem checkIn_already_inside (form : CheckInForm) (now : Timestamp) (newId : DocId)
    (store : Store) (hvalid : form.validateForm = none)
    (hinside : ∃ d ∈ store, d.idNumber = form.idNumber ∧ d.status = Status.inside) :
    form.handleCheckIn now newId store = (CheckInResult.alreadyInside, store) := by
  have hne : (getDocsInside form.idNumber store).isEmpty = false := by
    obtain ⟨d, hd, hid, hst⟩ := hinside
    cases h : getDocsInside form.idNumber store with
    | nil => exact absurd hst ((getDocsInside_eq_nil_iff _ _).1 h d hd hid)
    | cons a l => rfl
  rw [handleCheckIn_eq, hvalid]
  simp [hne]

/-- Witness of C2: a second check-in of `24807965` while the first visit is open. -/
theorem checkIn_already_inside_witness :
    (CheckInForm.web ⟨"24807965".toList, "Edward".toList, "John".toList,
        "KBM243T".toList⟩).handleCheckIn 200 2
      [⟨1, "24807965".toList, none, "Edward".toList, "John".toList, some "KBM243T".toList,
        100, none, Status.inside, 100⟩] =
    (CheckInResult.alreadyInside,
      [⟨1, "24807965".toList, none, "Edward".toList, "John".toList, some "KBM243T".toList,
        100, none, Status.inside, 100⟩]) :=
  checkIn_already_inside _ 200 2 _ (by decide) ⟨_, List.mem_singleton.2 rfl, by decide⟩

/-- C3: for every form accepted by the validator and every store with no inside record
for its idNumber, check-in succeeds and the store after it is the store before it plus
one new record (every record of the store before is kept, unchanged and in order); the
new record has the input idNumber, the trimmed names, status inside, timeOut null and
timeIn = createdAt = the server time. -/
theorem checkIn_inserts_one (form : CheckInForm) (now : Timestamp) (newId : DocId)
    (store : Store) (hvalid : form.validateForm = none)
    (hout : ∀ d ∈ store, d.idNumber = form.idNumber → d.status ≠ Status.inside) :
    (form.handleCheckIn now newId store).1 = CheckInResult.success ∧
    ∃ d : VisitRecord,
      (form.handleCheckIn now newId store).2.Perm (d :: store) ∧
      store.Sublist (form.handleCheckIn now newId store).2 ∧
      d.id = newId ∧
      d.idNumber = form.idNumber ∧
      d.firstName = trim form.firstName ∧
      d.lastName = trim form.lastName ∧
      d.status = Status.inside ∧
      d.timeOut = none ∧
      d.timeIn = now ∧
      d.createdAt = now := by
  have hq := (getDocsInside_eq_nil_iff _ _).2 hout
  have hrun : form.handleCheckIn now newId store =
      (CheckInResult.success, addDoc (form.newDoc now newId) store) := by
    rw [handleCheckIn_eq, hvalid]
    simp [hq]
  obtain ⟨h1, h2, h3, h4, -, h6, h7, h8, h9⟩ := newDoc_fields form now newId
  rw [hrun]
  exact ⟨rfl, form.newDoc now newId, List.perm_orderedInsert _ _ _,
    List.sublist_orderedInsert _ _, h1, h2, h3, h4, h8, h7, h6, h9⟩

/-- Witness of C3: the check-in of the scenario, into a store that holds an earlier,
closed visit of the same person. -/
theorem checkIn_inserts_one_witness :
    ((CheckInForm.web ⟨"24807965".toList, " Edward".toList, "John ".toList,
        "KBM243T".toList⟩).handleCheckIn 300 2
      [⟨1, "24807965".toList, none, "Edward".toList, "John".toList, none,
        100, some 200, Status.left, 100⟩]).1 = CheckInResult.success ∧
    ∃ d : VisitRecord,
      ((CheckInForm.web ⟨"24807965".toList, " Edward".toList, "John ".toList,
        "KBM243T".toList⟩).handleCheckIn 300 2
      [⟨1, "24807965".toList, none, "Edward".toList, "John".toList, none,
        100, some 200, Status.left, 100⟩]).2.Perm
        (d :: [⟨1, "24807965".toList, none, "Edward".toList, "John".toList, none,
          100, some 200, Status.left, 100⟩]) ∧
      d.firstName = "Edward".toList ∧ d.lastName = "John".toList ∧
      d.status = Status.inside ∧ d.timeOut = none ∧ d.timeIn = 300 ∧ d.createdAt = 300 := by
  obtain ⟨h1, d, h2, -, -, -, h5, h6, h7, h8, h9, h10⟩ :=
    checkIn_inserts_one
      (CheckInForm.web ⟨"24807965".toList, " Edward".toList, "John ".toList,
        "KBM243T".toList⟩) 300 2
      [⟨1, "24807965".toList, none, "Edward".toList, "John".toList, none,
        100, some 200, Status.left, 100⟩] (by decide) (by decide)
  refine ⟨h1, d, h2, ?_, ?_, h7, h8, h9, h10⟩
  · rw [h5]; decide
  · rw [h6]; decide

/-- C9: for every form accepted by the validator, the carPlate stored by a successful
check-in is the input plate converted to upper case, and it is stored as null exactly
when the carPlate input is the empty string. -/
theorem carPlate_stored_upper (form : CheckInForm) (now : Timestamp) (newId : DocId)
    (store : Store) (hvalid : form.validateForm = none)
    (hout : ∀ d ∈ store, d.idNumber = form.idNumber → d.status ≠ Status.inside) :
    ∃ d : VisitRecord,
      (form.handleCheckIn now newId store).2.Perm (d :: store) ∧
      d.id = newId ∧
      (form.carPlate ≠ [] → d.carPlate = some (toUpperCase form.carPlate)) ∧
      (d.carPlate = none ↔ form.carPlate = []) := by
  have hq := (getDocsInside_eq_nil_iff _ _).2 hout
  have hrun : form.handleCheckIn now newId store =
      (CheckInResult.success, addDoc (form.newDoc now newId) store) := by
    rw [handleCheckIn_eq, hvalid]
    simp [hq]
  obtain ⟨h1, -, -, -, h5, -⟩ := newDoc_fields form now newId
  have hstored : form.carPlate ≠ [] →
      (form.newDoc now newId).carPlate = some (toUpperCase form.carPlate) := by
    intro hp
    have hv := hvalid
    rw [← withCarPlate_carPlate form] at hv
    have hplate := (carPlateRegex_test_iff _).1
      ((validateForm_withCarPlate_iff form form.carPlate
        (validateForm_none_withCarPlate form hvalid) hp).1 hv)
    rw [h5, trim_of_isPlate _ hplate]
    obtain ⟨a, b, c, x, y, z, d, he, -⟩ := hplate
    rw [he]
    rfl
  rw [hrun]
  refine ⟨form.newDoc now newId, List.perm_orderedInsert _ _ _, h1, hstored, ?_⟩
  constructor
  · intro hnone
    by_contra hp
    rw [hstored hp] at hnone
    exact absurd hnone (by simp)
  · intro hp
    rw [h5, hp]
    rfl

/-- Witness of C9: the plate `kbm243t` is stored as `KBM243T`. -/
theorem carPlate_stored_upper_witness :
    ∃ d : VisitRecord,
      ((CheckInForm.web ⟨"24807965".toList, "Edward".toList, "John".toList,
        "kbm243t".toList⟩).handleCheckIn 100 1 []).2.Perm (d :: []) ∧
      d.carPlate = some "KBM243T".toList := by
  obtain ⟨d, h1, -, h3, -⟩ := carPlate_stored_upper
    (CheckInForm.web ⟨"24807965".toList, "Edward".toList, "John".toList, "kbm243t".toList⟩)
    100 1 [] (by decide) (by decide)
  refine ⟨d, h1, ?_⟩
  rw [h3 (by decide)]
  decide

/-! ## Check-out -/

/-- C5: for every 8-digit idNumber and every store with no record of that idNumber and
status inside (its records may all have status left), check-out ends with NotInside and
the store after it equals the store before. -/
theorem checkOut_not_inside (client : Client) (searchId : JSString) (now : Timestamp)
    (store : Store) (hid : searchId.length = 8 ∧ searchId.all Char.isDigit = true)
    (hnone : ∀ d ∈ store, d.idNumber = searchId → d.status ≠ Status.inside) :
    client.handleCheckOut searchId now store = (CheckOutResult.notInside, store) := by
  rw [handleCheckOut_eq, (idNumber_test_false_iff searchId).2 hid,
    (getDocsInside_eq_nil_iff _ _).2 hnone]
  rfl

/-- Witness of C5: check-out of `24807965` when its only visit is already closed. -/
theorem checkOut_not_inside_witness :
    Client.web.handleCheckOut "24807965".toList 300
      [⟨1, "24807965".toList, none, "Edward".toList, "John".toList, none,
        100, some 200, Status.left, 100⟩] =
    (CheckOutResult.notInside,
      [⟨1, "24807965".toList, none, "Edward".toList, "John".toList, none,
        100, some 200, Status.left, 100⟩]) :=
  checkOut_not_inside Client.web _ 300 _ (by decide) (by decide)

/-- C4: for every 8-digit idNumber and every store (its documents under distinct names)
in which the query for that idNumber and status inside returns one or more records,
check-out succeeds and performs exactly one update: the first record returned, which
occurs once in the store, gets status left and timeOut = the server time with all its
other fields as they were, and every other record of the store is unchanged. -/
theorem checkOut_updates_first (client : Client) (searchId : JSString) (now : Timestamp)
    (store : Store) (first : VisitRecord) (rest : List VisitRecord)
    (hid : searchId.length = 8 ∧ searchId.all Char.isDigit = true)
    (hnames : (store.map VisitRecord.id).Nodup)
    (hquery : getDocsInside searchId store = first :: rest) :
    client.handleCheckOut searchId now store =
      (CheckOutResult.success,
        store.map (fun d =>
          if d = first then { first with timeOut := some now, status := Status.left }
          else d)) ∧
    store.count first = 1 := by
  have hmem : first ∈ store := by
    have : first ∈ getDocsInside searchId store := by rw [hquery]; exact List.mem_cons_self _ _
    exact (List.mem_filter.1 this).1
  refine ⟨?_, List.count_eq_one_of_mem (List.Nodup.of_map _ hnames) hmem⟩
  rw [handleCheckOut_eq, (idNumber_test_false_iff searchId).2 hid, hquery]
  simp only [Bool.false_eq_true, if_false, updateDoc]
  congr 1
  apply List.map_congr_left
  intro d hd
  by_cases h : d = first
  · subst h; simp
  · have hne : d.id ≠ first.id := fun he =>
      h (List.inj_on_of_nodup_map hnames hd hmem he)
    simp [h, hne]

/-- Witness of C4: check-out of `24807965` in a store holding its open visit and the open
visit of somebody else. -/
theorem checkOut_updates_first_witness :
    Client.mobile.handleCheckOut "24807965".toList 300
      [⟨1, "11112222".toList, none, "Mary".toList, "Ann".toList, none,
        50, none, Status.inside, 50⟩,
       ⟨2, "24807965".toList, none, "Edward".toList, "John".toList, some "KBM243T".toList,
        100, none, Status.inside, 100⟩] =
    (CheckOutResult.success,
      [⟨1, "11112222".toList, none, "Mary".toList, "Ann".toList, none,
        50, none, Status.inside, 50⟩,
       ⟨2, "24807965".toList, none, "Edward".toList, "John".toList, some "KBM243T".toList,
        100, some 300, Status.left, 100⟩]) := by
  have h := (checkOut_updates_first Client.mobile "24807965".toList 300
      [⟨1, "11112222".toList, none, "Mary".toList, "Ann".toList, none,
        50, none, Status.inside, 50⟩,
       ⟨2, "24807965".toList, none, "Edward".toList, "John".toList, some "KBM243T".toList,
        100, none, Status.inside, 100⟩]
      ⟨2, "24807965".toList, none, "Edward".toList, "John".toList, some "KBM243T".toList,
        100, none, Status.inside, 100⟩ [] (by decide) (by decide) (by decide)).1
  rw [h]
  decide

/-! ## The uniqueness invariant, and a full visit -/

/-- C1: in every store reached from the empty store by a sequence of check-ins and
check-outs executed one after the other, on either client and with any inputs, at most
one record of a given idNumber has status inside. -/
theorem at_most_one_inside (ops : List Op) (idNumber : JSString) :
    insideCount idNumber (runOps ops []) ≤ 1 :=
  runOps_keeps_unique ops [] (fun _ => Nat.zero_le 1) idNumber

/-- C6: from a store with no record of idNumber X, a check-in of a valid form with
idNumber X at server time t1 followed at once by a check-out of X at server time t2, with
t1 ≤ t2, both succeed and leave exactly one record with idNumber X; that record has
status left, timeOut set to t2, and timeIn = t1 ≤ timeOut. -/
theorem checkIn_then_checkOut (form : CheckInForm) (client : Client) (t1 t2 : Timestamp)
    (newId : DocId) (store : Store) (hvalid : form.validateForm = none)
    (hnew : ∀ d ∈ store, d.idNumber ≠ form.idNumber) (htime : t1 ≤ t2) :
    (form.handleCheckIn t1 newId store).1 = CheckInResult.success ∧
    (client.handleCheckOut form.idNumber t2 (form.handleCheckIn t1 newId store).2).1 =
      CheckOutResult.success ∧
    ∃ d : VisitRecord,
      (client.handleCheckOut form.idNumber t2 (form.handleCheckIn t1 newId store).2).2.filter
        (fun r => decide (r.idNumber = form.idNumber)) = [d] ∧
      d.status = Status.left ∧
      (∃ tOut, d.timeOut = some tOut ∧ tOut = t2 ∧ d.timeIn ≤ tOut) := by
  obtain ⟨h1, h2, -, -, -, h6, -, h8, -⟩ := newDoc_fields form t1 newId
  have hq : getDocsInside form.idNumber store = [] :=
    (getDocsInside_eq_nil_iff _ _).2 (fun d hd hid => absurd hid (hnew d hd))
  have hrun : form.handleCheckIn t1 newId store =
      (CheckInResult.success, addDoc (form.newDoc t1 newId) store) := by
    rw [handleCheckIn_eq, hvalid]
    simp [hq]
  have hq1 : getDocsInside form.idNumber (addDoc (form.newDoc t1 newId) store) =
      [form.newDoc t1 newId] := by
    apply filter_addDoc_singleton
    · simp [h2, h8]
    · intro r hr
      simp [hnew r hr]
  have hall : (addDoc (form.newDoc t1 newId) store).filter
      (fun r => decide (r.idNumber = form.idNumber)) = [form.newDoc t1 newId] := by
    apply filter_addDoc_singleton
    · simp [h2]
    · intro r hr
      simp [hnew r hr]
  have hout : client.handleCheckOut form.idNumber t2 (addDoc (form.newDoc t1 newId) store) =
      (CheckOutResult.success,
        updateDoc (form.newDoc t1 newId).id t2 (addDoc (form.newDoc t1 newId) store)) := by
    rw [handleCheckOut_eq, validateForm_none_idNumber form hvalid, hq1]
    rfl
  rw [hrun, hout]
  refine ⟨rfl, rfl, { form.newDoc t1 newId with timeOut := some t2, status := Status.left },
    ?_, rfl, t2, rfl, rfl, ?_⟩
  · rw [filter_idNumber_updateDoc, hall]
    simp
  · show (form.newDoc t1 newId).timeIn ≤ t2
    rw [h6]
    exact htime

/-- Witness of C6: the scenario of the specification, on the web client and the empty
store. -/
theorem checkIn_then_checkOut_witness :
    ∃ d : VisitRecord,
      (Client.web.handleCheckOut "24807965".toList 200
        ((CheckInForm.web ⟨"24807965".toList, "Edward".toList, "John".toList,
          "KBM243T".toList⟩).handleCheckIn 100 1 []).2).2.filter
        (fun r => decide (r.idNumber = "24807965".toList)) = [d] ∧
      d.status = Status.left ∧
      (∃ tOut, d.timeOut = some tOut ∧ tOut = 200 ∧ d.timeIn ≤ tOut) :=
  (checkIn_then_checkOut
    (CheckInForm.web ⟨"24807965".toList, "Edward".toList, "John".toList, "KBM243T".toList⟩)
    Client.web 100 200 1 [] (by decide) (by decide) (by decide)).2.2

/-! ## The stored mobile number, and the names -/

/-- C11 fails on the code: the mobile client accepts the number `712345678`, written
without a prefix, and a check-in stores it as it is, not as `254712345678`; the same
number entered as `0712345678` is stored as `254712345678`, so two accepted spellings of
one number are stored as different strings. -/
theorem mobileNumber_stored_without_country_code :
    Mobile.validateForm ⟨"24807965".toList, "712345678".toList, "Edward".toList,
      "John".toList, []⟩ = none ∧
    (Mobile.handleCheckIn ⟨"24807965".toList, "712345678".toList, "Edward".toList,
      "John".toList, []⟩ 100 1 []).2.map VisitRecord.mobileNumber =
      [some "712345678".toList] ∧
    Mobile.validateForm ⟨"24807965".toList, "0712345678".toList, "Edward".toList,
      "John".toList, []⟩ = none ∧
    (Mobile.handleCheckIn ⟨"24807965".toList, "0712345678".toList, "Edward".toList,
      "John".toList, []⟩ 100 1 []).2.map VisitRecord.mobileNumber =
      [some "254712345678".toList] := by
  refine ⟨by decide, by decide, by decide, by decide⟩

/-- C12: for every form whose idNumber is valid and, on the mobile client, whose
mobileNumber is valid, validation fails with MissingName if and only if firstName or
lastName is empty after trimming white space; a string is empty after trimming exactly
when it consists of white space only, so such a name is rejected. -/
theorem missingName_iff (form : CheckInForm)
    (hid : form.idNumber.length = 8 ∧ form.idNumber.all Char.isDigit = true)
    (hmobile : ∀ formData, form = CheckInForm.mobile formData →
      IsMobileNumber formData.mobileNumber) :
    (form.validateForm = some ValidationError.missingName ↔
      trim form.firstName = [] ∨ trim form.lastName = []) ∧
    (form.validateForm = some ValidationError.missingName ↔
      form.firstName.all isWhiteSpace = true ∨ form.lastName.all isWhiteSpace = true) := by
  have key : form.validateForm = some ValidationError.missingName ↔
      trim form.firstName = [] ∨ trim form.lastName = [] := by
    rw [validateForm_names form hid hmobile]
    cases h1 : trim form.firstName with
    | nil => simp
    | cons a l =>
      cases h2 : trim form.lastName with
      | nil => simp
      | cons b k =>
        simp only [List.isEmpty_cons, Bool.or_self, Bool.false_eq_true, if_false,
          reduceCtorEq, or_self, iff_false]
        split_ifs <;> simp
  refine ⟨key, ?_⟩
  rw [key, trim_eq_nil_iff, trim_eq_nil_iff]

/-- Witness of C12: a first name made of two spaces is rejected with MissingName. -/
theorem missingName_iff_witness :
    (CheckInForm.web ⟨"24807965".toList, "  ".toList, "John".toList, []⟩).validateForm =
      some ValidationError.missingName :=
  (missingName_iff (CheckInForm.web ⟨"24807965".toList, "  ".toList, "John".toList, []⟩)
    (by decide) (fun _ h => by cases h)).2.2 (Or.inl (by decide))

/-! ## Rejected input, and the life of a record -/

/-- C13: for every check-in form rejected by `validateForm` and every check-out ID that is
not 8 digits, the handler ends before any store interaction: it issues no query, insert or
update, and the store is unchanged. -/
theorem rejected_input_no_store_call (form : CheckInForm) (client : Client)
    (searchId : JSString) (now : Timestamp) (newId : DocId) (store : Store)
    (e : ValidationError) (hform : form.validateForm = some e)
    (hsearch : ¬ (searchId.length = 8 ∧ searchId.all Char.isDigit = true)) :
    form.handleCheckIn now newId store = (CheckInResult.rejected e, store) ∧
    form.handleCheckInCalls now newId store = [] ∧
    client.handleCheckOut searchId now store = (CheckOutResult.invalidId, store) ∧
    client.handleCheckOutCalls searchId now store = [] := by
  have hbad : (searchId.isEmpty || jsLength searchId != 8 ||
      !test idNumberRegex searchId) = true := by
    cases hc : (searchId.isEmpty || jsLength searchId != 8 || !test idNumberRegex searchId)
    · exact absurd ((idNumber_test_false_iff searchId).1 hc) hsearch
    · rfl
  refine ⟨?_, ?_, ?_, ?_⟩
  · rw [handleCheckIn_eq, hform]
  · cases form with
    | mobile f =>
      simp only [CheckInForm.validateForm] at hform
      simp only [CheckInForm.handleCheckInCalls, Mobile.handleCheckInCalls, hform]
    | web f =>
      simp only [CheckInForm.validateForm] at hform
      simp only [CheckInForm.handleCheckInCalls, Web.handleCheckInCalls, hform]
  · rw [handleCheckOut_eq, if_pos hbad]
  · cases client with
    | mobile =>
      simp only [Client.handleCheckOutCalls, Mobile.handleCheckOutCalls]
      rw [if_pos hbad]
    | web =>
      simp only [Client.handleCheckOutCalls, Web.handleCheckOutCalls]
      rw [if_pos hbad]

/-- Witness of C13: the scenario of the specification, a check-in and a check-out with
the ID `123`. -/
theorem rejected_input_no_store_call_witness :
    (CheckInForm.web ⟨"123".toList, "Edward".toList, "John".toList, []⟩).handleCheckIn 100 1
      [] = (CheckInResult.rejected ValidationError.invalidId, []) ∧
    (CheckInForm.web ⟨"123".toList, "Edward".toList, "John".toList,
      []⟩).handleCheckInCalls 100 1 [] = [] ∧
    Client.web.handleCheckOut "123".toList 100 [] = (CheckOutResult.invalidId, []) ∧
    Client.web.handleCheckOutCalls "123".toList 100 [] = [] :=
  rejected_input_no_store_call
    (CheckInForm.web ⟨"123".toList, "Edward".toList, "John".toList, []⟩) Client.web
    "123".toList 100 1 [] ValidationError.invalidId (by decide) (by decide)

/-- C14: in every store reached from the empty store by a sequence of check-ins and
check-outs, every record has timeOut non-null if and only if its status is left. -/
theorem timeOut_iff_left (ops : List Op) :
    ∀ d ∈ runOps ops [], (d.timeOut ≠ none ↔ d.status = Status.left) :=
  runOps_keeps_timeOut_iff_left ops [] (fun d hd => absurd hd (List.not_mem_nil d))

/-- Witness of C14: the record left by the check-in and check-out of the scenario. -/
theorem timeOut_iff_left_witness :
    (some 200 : Option Timestamp) ≠ none ↔ Status.left = Status.left :=
  timeOut_iff_left
    [Op.webCheckIn ⟨"24807965".toList, "Edward".toList, "John".toList, "KBM243T".toList⟩
      100 1, Op.webCheckOut "24807965".toList 200]
    ⟨1, "24807965".toList, none, "Edward".toList, "John".toList, some "KBM243T".toList,
      100, some 200, Status.left, 100⟩ (by decide)

/-- C15: in every store reached from the empty store by a sequence of check-ins and
check-outs whose server times are non-decreasing in the order of the operations, every
record whose timeOut is set has timeIn ≤ timeOut. -/
theorem timeIn_le_timeOut (ops : List Op) (hsorted : (ops.map Op.now).Sorted (· ≤ ·)) :
    ∀ d ∈ runOps ops [], ∀ t, d.timeOut = some t → d.timeIn ≤ t :=
  runOps_keeps_times ops [] 0 hsorted (fun _ _ => Nat.zero_le _)
    (fun d hd => absurd hd (List.not_mem_nil d))

/-- Witness of C15: the record left by the check-in at time 100 and the check-out at time
200 of the scenario. -/
theorem timeIn_le_timeOut_witness : (100 : Timestamp) ≤ 200 :=
  timeIn_le_timeOut
    [Op.webCheckIn ⟨"24807965".toList, "Edward".toList, "John".toList, "KBM243T".toList⟩
      100 1, Op.webCheckOut "24807965".toList 200] (by decide)
    ⟨1, "24807965".toList, none, "Edward".toList, "John".toList, some "KBM243T".toList,
      100, some 200, Status.left, 100⟩ (by decide) 200 rfl

/-- C16: for every store, its documents under distinct names, and every check-in or
check-out, successful or failing, every document present before the operation is present
after it, and every record whose status was left before the operation is in the store
after it, identical; so a record is changed by its check-out only, and its timeOut, once
set by it, stays. -/
theorem records_kept (op : Op) (store : Store)
    (hnames : (store.map VisitRecord.id).Nodup) :
    (store.map VisitRecord.id).Sublist ((op.run store).map VisitRecord.id) ∧
    ∀ d ∈ store, d.status = Status.left → d ∈ op.run store := by
  rcases run_cases op store with hr | ⟨a, hr, -, -, -⟩ | ⟨first, hfirst, hstatus, hr⟩
  · rw [hr]
    exact ⟨List.Sublist.refl _, fun d hd _ => hd⟩
  · rw [hr]
    refine ⟨List.Sublist.map _ (List.sublist_orderedInsert _ _), ?_⟩
    intro d hd _
    exact (mem_addDoc d a store).2 (Or.inr hd)
  · rw [hr]
    constructor
    · have : (updateDoc first.id op.now store).map VisitRecord.id =
          store.map VisitRecord.id := by
        unfold updateDoc
        rw [List.map_map]
        apply List.map_congr_left
        intro d _
        simp only [Function.comp_apply]
        split_ifs <;> rfl
      rw [this]
    · intro d hd hleft
      refine (mem_updateDoc d _ _ store).2 ⟨d, hd, ?_⟩
      have hne : d.id ≠ first.id := by
        intro he
        have := List.inj_on_of_nodup_map hnames hd hfirst he
        rw [this, hstatus] at hleft
        exact absurd hleft (by decide)
      rw [if_neg hne]

/-- Witness of C16: a check-out of `24807965` while an earlier visit of the same person is
already closed. -/
theorem records_kept_witness :
    ([⟨1, "24807965".toList, none, "Edward".toList, "John".toList, none,
        100, some 200, Status.left, 100⟩,
      ⟨2, "24807965".toList, none, "Edward".toList, "John".toList, none,
        300, none, Status.inside, 300⟩].map VisitRecord.id).Sublist
      (((Op.webCheckOut "24807965".toList 400).run
        [⟨1, "24807965".toList, none, "Edward".toList, "John".toList, none,
          100, some 200, Status.left, 100⟩,
         ⟨2, "24807965".toList, none, "Edward".toList, "John".toList, none,
          300, none, Status.inside, 300⟩]).map VisitRecord.id) :=
  (records_kept (Op.webCheckOut "24807965".toList 400)
    [⟨1, "24807965".toList, none, "Edward".toList, "John".toList, none,
        100, some 200, Status.left, 100⟩,
      ⟨2, "24807965".toList, none, "Edward".toList, "John".toList, none,
        300, none, Status.inside, 300⟩] (by decide)).1

/-! ## The views -/

/-- C17: for every store, the active-visitors view of either client consists of exactly
the records with status inside, in descending order of timeIn; it holds no record with
status left. -/
theorem activeVisitors_view (client : Client) (store : Store) :
    (client.loadActiveVisitors store).Perm
      (store.filter (fun d => decide (d.status = Status.inside))) ∧
    ((client.loadActiveVisitors store).map VisitRecord.timeIn).Sorted (· ≥ ·) ∧
    (client.loadActiveVisitors store).all (fun d => decide (d.status ≠ Status.left)) =
      true := by
  have hview : client.loadActiveVisitors store = getDocsActive store := by
    cases client <;> rfl
  rw [hview]
  have hperm : (getDocsActive store).Perm
      (store.filter (fun d => decide (d.status = Status.inside))) :=
    List.perm_insertionSort _ _
  refine ⟨hperm, sorted_timeIn_of_sorted _ (sorted_insertionSort_newerFirst _), ?_⟩
  rw [List.all_eq_true]
  intro d hd
  have := (List.mem_filter.1 (hperm.mem_iff.1 hd)).2
  have hin : d.status = Status.inside := of_decide_eq_true this
  rw [hin]
  decide

/-- C18: for every store, the recent-activity view of a client is the first N entries of
all records in descending order of timeIn, with N = 50 on the mobile and N = 20 on the web
client: it has min(N, number of records) entries, it is in descending order of timeIn, and
the records it omits make up, with the view, the whole store, none of them with a timeIn
later than that of an entry of the view. -/
theorem recentActivity_view (client : Client) (store : Store) :
    client.loadRecentActivity store = (getDocsRecent store).take client.recentLimit ∧
    (client.loadRecentActivity store).length = min client.recentLimit store.length ∧
    ((client.loadRecentActivity store).map VisitRecord.timeIn).Sorted (· ≥ ·) ∧
    ∃ omitted : List VisitRecord,
      (client.loadRecentActivity store ++ omitted).Perm store ∧
      (client.loadRecentActivity store).all (fun a =>
        omitted.all (fun b => decide (b.timeIn ≤ a.timeIn))) = true := by
  have hview : client.loadRecentActivity store =
      (getDocsRecent store).take client.recentLimit := by
    cases client <;> rfl
  have hperm : (getDocsRecent store).Perm store := List.perm_insertionSort _ _
  have hsorted : (getDocsRecent store).Sorted (fun a b => newerFirst a b = true) :=
    sorted_insertionSort_newerFirst _
  rw [hview]
  refine ⟨rfl, ?_, ?_, (getDocsRecent store).drop client.recentLimit, ?_, ?_⟩
  · rw [List.length_take, hperm.length_eq]
  · exact sorted_timeIn_of_sorted _ (hsorted.sublist (List.take_sublist _ _))
  · rw [List.take_append_drop]
    exact hperm
  · rw [List.all_eq_true]
    intro a ha
    rw [List.all_eq_true]
    intro b hb
    exact decide_eq_true
      (newerFirst_timeIn a b (hsorted.rel_of_mem_take_of_mem_drop ha hb))

/-! ## Formatting -/

/-- C19: `formatDuration` returns the placeholder `-` if and only if timeIn or timeOut is
absent, and `formatTime` returns `-` if and only if its timestamp is absent, the date
formatter never printing a date as `-`; a present timestamp equal to the epoch is not
treated as absent. -/
theorem placeholder_iff_absent (intlFormat : JSDate → JSString)
    (hIntl : ∀ d, intlFormat d ≠ "-".toList) (timeIn timeOut date : Option JSDate) :
    (formatDuration timeIn timeOut = "-".toList ↔ timeIn = none ∨ timeOut = none) ∧
    (formatTime intlFormat date = "-".toList ↔ date = none) ∧
    formatDuration (some (toDate 0)) (some (toDate 0)) ≠ "-".toList ∧
    formatTime intlFormat (some (toDate 0)) ≠ "-".toList := by
  have hsome : ∀ a b : JSDate, formatDuration (some a) (some b) ≠ "-".toList := by
    intro a b
    simp only [formatDuration]
    exact append_m_ne_placeholder _
  refine ⟨?_, ?_, hsome _ _, hIntl _⟩
  · cases timeIn with
    | none => simp [formatDuration]
    | some a =>
      cases timeOut with
      | none => simp [formatDuration]
      | some b =>
        constructor
        · intro h
          exact absurd h (hsome a b)
        · rintro (h | h) <;> cases h
  · cases date with
    | none => simp [formatTime]
    | some d =>
      constructor
      · intro h
        exact absurd h (hIntl d)
      · intro h
        cases h

/-- Witness of C19: with a formatter that prints every date as `01 Jan, 03:00`, a present
timeIn with an absent timeOut gives the placeholder. -/
theorem placeholder_iff_absent_witness :
    formatDuration (some 100) none = "-".toList ↔
      (some 100 : Option JSDate) = none ∨ (none : Option JSDate) = none :=
  (placeholder_iff_absent (fun _ => "01 Jan, 03:00".toList)
    (fun _ => (by decide : "01 Jan, 03:00".toList ≠ "-".toList)) (some 100) none none).1

/-- Counterexample to C20 as stated: from the earliest to one millisecond before the latest
valid date the difference is d = 17279999999999999 ms, with d / 3600000 = 4799999999 and
(d mod 3600000) / 60000 = 59, but the code, which computes the difference on doubles,
prints `4800000000h 0m`. -/
theorem formatDuration_extreme_dates :
    IsDate (-8640000000000000) ∧ IsDate 8639999999999999 ∧
    (-8640000000000000 : Int) ≤ 8639999999999999 ∧
    formatDuration (some (-8640000000000000)) (some 8639999999999999) =
      "4800000000h 0m".toList ∧
    ((8639999999999999 : Int) - (-8640000000000000)) / 3600000 = 4799999999 ∧
    ((8639999999999999 : Int) - (-8640000000000000)) % 3600000 / 60000 = 59 ∧
    formatDuration (some (-8640000000000000)) (some 8639999999999999) ≠
      numberToString (((8639999999999999 : Int) - (-8640000000000000)) / 3600000) ++
        "h ".toList ++
        numberToString (((8639999999999999 : Int) - (-8640000000000000)) % 3600000 / 60000) ++
        "m".toList := by
  have h := formatDuration_some (-8640000000000000) 8639999999999999
    ⟨by decide, by decide⟩ ⟨by decide, by decide⟩
  refine ⟨⟨by decide, by decide⟩, ⟨by decide, by decide⟩, by decide, ?_, by decide, by decide,
    ?_⟩
  · rw [h]
    decide
  · rw [h]
    decide

/-- C20, amended: for all present timestamps, valid dates with timeOut ≥ timeIn,
`formatDuration` returns `Hh Mm` where, d being the difference timeOut - timeIn as the code
computes it on doubles (the exact difference in milliseconds whenever that is at most
2 ^ 53, otherwise the double nearest to it), H = d / 3600000 ≥ 0 and
M = (d mod 3600000) / 60000 with 0 ≤ M ≤ 59 (the divisions rounding down), so that
60 H + M = d / 60000; the hours are not capped at 24. -/
theorem formatDuration_hours_minutes (tIn tOut : Int) (hIn : IsDate tIn)
    (hOut : IsDate tOut) (hle : tIn ≤ tOut) :
    ∃ d H M : Int,
      d = nearestDouble (tOut - tIn) ∧
      (tOut - tIn ≤ 2 ^ 53 → d = tOut - tIn) ∧
      formatDuration (some tIn) (some tOut) =
        numberToString H ++ "h ".toList ++ numberToString M ++ "m".toList ∧
      H = d / 3600000 ∧
      M = d % 3600000 / 60000 ∧
      0 ≤ H ∧ 0 ≤ M ∧ M ≤ 59 ∧
      60 * H + M = d / 60000 := by
  have hd : 0 ≤ tOut - tIn := Int.sub_nonneg.2 hle
  have hrange : -17280000000000000 ≤ tOut - tIn ∧ tOut - tIn ≤ 17280000000000000 := by
    obtain ⟨h1, h2⟩ := hIn
    obtain ⟨h3, h4⟩ := hOut
    constructor <;> omega
  obtain ⟨-, hpos, -, hexact⟩ := nearestDouble_facts (tOut - tIn) hrange
  have hD := hpos hd
  obtain ⟨h1, h2, h3, h4⟩ := hours_minutes (nearestDouble (tOut - tIn)) hD
  refine ⟨nearestDouble (tOut - tIn), nearestDouble (tOut - tIn) / 3600000,
    nearestDouble (tOut - tIn) % 3600000 / 60000, rfl, ?_, ?_, rfl, rfl, h1, h2, h3, h4⟩
  · intro hsmall
    apply hexact
    constructor
    · omega
    · have : (2 : Int) ^ 53 = 9007199254740992 := by norm_num
      omega
  · rw [formatDuration_some tIn tOut hIn hOut, Int.tmod_eq_emod hD (by norm_num)]

/-- Witness of C20, amended: a visit of 100 hours and 5 minutes is rendered `100h 5m`. -/
theorem formatDuration_hours_minutes_witness :
    formatDuration (some 0) (some 360300000) = "100h 5m".toList := by
  obtain ⟨d, H, M, hd, -, h, hH, hM, -⟩ :=
    formatDuration_hours_minutes 0 360300000 ⟨by decide, by decide⟩ ⟨by decide, by decide⟩
      (by decide)
  rw [h, hM, hH, hd]
  decide

/-! ## Several open visits of one person -/

/-- C21 fails on the code: in a store with two open visits of `24807965`, the document named
1 checked in at time 100 and the document named 2 checked in at time 200, the check-out
updates the document named 1, the first the query returns, and leaves the most recent
check-in, the one with the greatest timeIn, with status inside. -/
theorem checkOut_updates_first_not_most_recent :
    Client.web.handleCheckOut "24807965".toList 300
      [⟨1, "24807965".toList, none, "Edward".toList, "John".toList, none,
        100, none, Status.inside, 100⟩,
       ⟨2, "24807965".toList, none, "Edward".toList, "John".toList, none,
        200, none, Status.inside, 200⟩] =
    (CheckOutResult.success,
      [⟨1, "24807965".toList, none, "Edward".toList, "John".toList, none,
        100, some 300, Status.left, 100⟩,
       ⟨2, "24807965".toList, none, "Edward".toList, "John".toList, none,
        200, none, Status.inside, 200⟩]) ∧
    Client.mobile.handleCheckOut "24807965".toList 300
      [⟨1, "24807965".toList, none, "Edward".toList, "John".toList, none,
        100, none, Status.inside, 100⟩,
       ⟨2, "24807965".toList, none, "Edward".toList, "John".toList, none,
        200, none, Status.inside, 200⟩] =
    (CheckOutResult.success,
      [⟨1, "24807965".toList, none, "Edward".toList, "John".toList, none,
        100, some 300, Status.left, 100⟩,
       ⟨2, "24807965".toList, none, "Edward".toList, "John".toList, none,
        200, none, Status.inside, 200⟩]) := by
  refine ⟨by decide, by decide⟩

/-- C22: for every store, its documents under distinct names, holding k ≥ 1 records with
the 8-digit idNumber X and status inside, a check-out of X succeeds and changes only the
first match: every other record is in the store after it as it was, the store keeps its
number of documents, and exactly k - 1 records with idNumber X still have status inside. -/
theorem checkOut_leaves_duplicates (client : Client) (searchId : JSString) (now : Timestamp)
    (store : Store) (hid : searchId.length = 8 ∧ searchId.all Char.isDigit = true)
    (hnames : (store.map VisitRecord.id).Nodup)
    (hk : 1 ≤ insideCount searchId store) :
    (client.handleCheckOut searchId now store).1 = CheckOutResult.success ∧
    insideCount searchId (client.handleCheckOut searchId now store).2 =
      insideCount searchId store - 1 ∧
    (client.handleCheckOut searchId now store).2.length = store.length ∧
    ∃ first : VisitRecord, (getDocsInside searchId store).head? = some first ∧
      (client.handleCheckOut searchId now store).2.Perm
        ({ first with timeOut := some now, status := Status.left } :: store.erase first) := by
  cases hquery : getDocsInside searchId store with
  | nil =>
    rw [insideCount_eq_zero searchId store hquery] at hk
    exact absurd hk (by decide)
  | cons first rest =>
    have hmemq : first ∈ getDocsInside searchId store := by
      rw [hquery]; exact List.mem_cons_self _ _
    have hmem : first ∈ store := (List.mem_filter.1 hmemq).1
    have hp : decide (first.idNumber = searchId ∧ first.status = Status.inside) = true :=
      (List.mem_filter.1 hmemq).2
    have hperm := updateDoc_perm first now store hnames hmem
    rw [handleCheckOut_of_query client searchId now store first rest hid hquery]
    refine ⟨rfl, ?_, ?_, first, rfl, hperm⟩
    · have h1 : insideCount searchId (updateDoc first.id now store) =
          insideCount searchId (store.erase first) := by
        unfold insideCount
        rw [hperm.countP_eq, List.countP_cons_of_neg]
        simp
      have h2 : insideCount searchId store = insideCount searchId (store.erase first) + 1 := by
        unfold insideCount
        rw [(List.perm_cons_erase hmem).countP_eq, List.countP_cons, if_pos hp]
      rw [h1, h2]
      rfl
    · rw [hperm.length_eq, List.length_cons, List.length_erase_of_mem hmem]
      have : 0 < store.length := List.length_pos_of_mem hmem
      omega

/-- Witness of C22: of two open visits of `24807965`, one is left open by the check-out. -/
theorem checkOut_leaves_duplicates_witness :
    insideCount "24807965".toList (Client.web.handleCheckOut "24807965".toList 300
      [⟨1, "24807965".toList, none, "Edward".toList, "John".toList, none,
        100, none, Status.inside, 100⟩,
       ⟨2, "24807965".toList, none, "Edward".toList, "John".toList, none,
        200, none, Status.inside, 200⟩]).2 =
    insideCount "24807965".toList
      [⟨1, "24807965".toList, none, "Edward".toList, "John".toList, none,
        100, none, Status.inside, 100⟩,
       ⟨2, "24807965".toList, none, "Edward".toList, "John".toList, none,
        200, none, Status.inside, 200⟩] - 1 :=
  (checkOut_leaves_duplicates Client.web "24807965".toList 300
    [⟨1, "24807965".toList, none, "Edward".toList, "John".toList, none,
        100, none, Status.inside, 100⟩,
      ⟨2, "24807965".toList, none, "Edward".toList, "John".toList, none,
        200, none, Status.inside, 200⟩] (by decide) (by decide) (by decide)).2.1

/-! ## The data model, and re-entry -/

/-- C23: in every store reached from the empty store by a sequence of check-ins and
check-outs, every record satisfies the data model: its idNumber is exactly 8 decimal
digits, its firstName and lastName are non-empty with no white space at either end, and its
carPlate is null or exactly three upper-case letters, three digits and one upper-case
letter. -/
theorem records_wellFormed (ops : List Op) : ∀ d ∈ runOps ops [], IsWellFormedRecord d :=
  runOps_keeps_wellFormed ops [] (fun d hd => absurd hd (List.not_mem_nil d))

/-- Witness of C23: the record written by a check-in with the names ` Edward` and `John `
and the plate `kbm243t`. -/
theorem records_wellFormed_witness :
    IsWellFormedRecord
      ⟨1, "24807965".toList, none, "Edward".toList, "John".toList, some "KBM243T".toList,
        100, none, Status.inside, 100⟩ :=
  records_wellFormed
    [Op.webCheckIn ⟨"24807965".toList, " Edward".toList, "John ".toList, "kbm243t".toList⟩
      100 1]
    ⟨1, "24807965".toList, none, "Edward".toList, "John".toList, some "KBM243T".toList,
      100, none, Status.inside, 100⟩ (by decide)

/-- C24: re-entry is allowed. For every store in which every record with idNumber X has
status left, a check-in of a valid form with idNumber X succeeds and adds one new record
with idNumber X and status inside; the records of the store before, the earlier visits of
X among them, are kept unchanged and in order. -/
theorem checkIn_again_after_checkOut (form : CheckInForm) (now : Timestamp) (newId : DocId)
    (store : Store) (hvalid : form.validateForm = none)
    (hleft : ∀ d ∈ store, d.idNumber = form.idNumber → d.status = Status.left) :
    (form.handleCheckIn now newId store).1 = CheckInResult.success ∧
    ∃ d : VisitRecord,
      (form.handleCheckIn now newId store).2.Perm (d :: store) ∧
      store.Sublist (form.handleCheckIn now newId store).2 ∧
      d.idNumber = form.idNumber ∧ d.status = Status.inside ∧
      (form.handleCheckIn now newId store).2.all
        (fun r => decide (r.idNumber = form.idNumber → r.status = Status.left ∨ r = d)) =
        true := by
  have hq : getDocsInside form.idNumber store = [] := by
    rw [getDocsInside_eq_nil_iff]
    intro d hd hid hin
    have := hleft d hd hid
    rw [hin] at this
    exact absurd this (by decide)
  have hrun : form.handleCheckIn now newId store =
      (CheckInResult.success, addDoc (form.newDoc now newId) store) := by
    rw [handleCheckIn_eq, hvalid]
    simp [hq]
  obtain ⟨-, h2, -, -, -, -, -, h8, -⟩ := newDoc_fields form now newId
  rw [hrun]
  refine ⟨rfl, form.newDoc now newId, List.perm_orderedInsert _ _ _,
    List.sublist_orderedInsert _ _, h2, h8, ?_⟩
  rw [List.all_eq_true]
  intro r hr
  apply decide_eq_true
  intro hid
  rcases (mem_addDoc r _ store).1 hr with h | h
  · exact Or.inr h
  · exact Or.inl (hleft r h hid)

/-- Witness of C24: a check-in of `24807965` right after the check-in and the check-out of
the scenario. -/
theorem checkIn_again_after_checkOut_witness :
    ((CheckInForm.web ⟨"24807965".toList, "Edward".toList, "John".toList,
        "KBM243T".toList⟩).handleCheckIn 300 2
      (runOps [Op.webCheckIn ⟨"24807965".toList, "Edward".toList, "John".toList,
          "KBM243T".toList⟩ 100 1, Op.webCheckOut "24807965".toList 200] [])).1 =
      CheckInResult.success :=
  (checkIn_again_after_checkOut
    (CheckInForm.web ⟨"24807965".toList, "Edward".toList, "John".toList, "KBM243T".toList⟩)
    300 2
    (runOps [Op.webCheckIn ⟨"24807965".toList, "Edward".toList, "John".toList,
        "KBM243T".toList⟩ 100 1, Op.webCheckOut "24807965".toList 200] [])
    (by decide) (by decide)).1

/-! ## The two clients, and negative durations -/

/-- C25: for every mobileNumber m accepted by the mobile validator, m is one of the
prefixes `254`, `+254`, `0` or none, followed by a 9-digit subscriber number, and the value
a successful check-in stores, m with a leading `+254`, `254` or `0` replaced by `254`, ends
with that subscriber number: it is `254` followed by the 9 digits when m has a prefix, and
m unchanged when m has none; applying the replacement a second time changes nothing. -/
theorem mobileNumber_stored (formData : Mobile.FormData) (now : Timestamp) (newId : DocId)
    (store : Store) (hvalid : Mobile.validateForm formData = none)
    (hout : ∀ d ∈ store, d.idNumber = formData.idNumber → d.status ≠ Status.inside) :
    ∃ (pre subscriber : List Char) (doc : VisitRecord),
      formData.mobileNumber = pre ++ subscriber ∧
      (pre = [] ∨ pre = "254".toList ∨ pre = "+254".toList ∨ pre = "0".toList) ∧
      subscriber.length = 9 ∧ subscriber.all Char.isDigit = true ∧
      (Mobile.handleCheckIn formData now newId store).2.Perm (doc :: store) ∧
      doc.mobileNumber = some (replaceCountryCode formData.mobileNumber) ∧
      subscriber <:+ replaceCountryCode formData.mobileNumber ∧
      (pre ≠ [] → replaceCountryCode formData.mobileNumber = "254".toList ++ subscriber) ∧
      (pre = [] → replaceCountryCode formData.mobileNumber = formData.mobileNumber) ∧
      replaceCountryCode (replaceCountryCode formData.mobileNumber) =
        replaceCountryCode formData.mobileNumber := by
  obtain ⟨pre, d, hm, hpre, hlen, hdig, hhead⟩ := validateForm_none_mobileNumber formData hvalid
  have hq := (getDocsInside_eq_nil_iff _ _).2 hout
  have hrun : Mobile.handleCheckIn formData now newId store =
      (CheckInResult.success, addDoc (Mobile.newDoc formData now newId) store) := by
    unfold Mobile.handleCheckIn
    rw [hvalid]
    simp [hq]
  obtain ⟨h1, h2, h3⟩ := replaceCountryCode_of_prefix d
  have h0 := replaceCountryCode_of_subscriber d hhead
  have hstored : replaceCountryCode formData.mobileNumber =
      if pre = [] then d else "254".toList ++ d := by
    rw [hm]
    rcases hpre with rfl | rfl | rfl | rfl
    · rw [if_pos rfl, List.nil_append, h0]
    · rw [if_neg (by decide), h2]
    · rw [if_neg (by decide), h1]
    · rw [if_neg (by decide), h3]
  refine ⟨pre, d, Mobile.newDoc formData now newId, hm, hpre, hlen, hdig, ?_, rfl, ?_, ?_, ?_,
    ?_⟩
  · rw [hrun]
    exact List.perm_orderedInsert _ _ _
  · rw [hstored]
    split_ifs
    · exact List.suffix_refl d
    · exact List.suffix_append _ d
  · intro hne
    rw [hstored, if_neg hne]
  · intro he
    rw [hstored, if_pos he, hm, he, List.nil_append]
  · rw [hstored]
    split_ifs
    · exact h0
    · exact h2

/-- Witness of C25: the number `+254712345678` is stored as `254712345678`. -/
theorem mobileNumber_stored_witness :
    ∃ doc : VisitRecord,
      (Mobile.handleCheckIn ⟨"24807965".toList, "+254712345678".toList, "Edward".toList,
        "John".toList, []⟩ 100 1 []).2.Perm (doc :: []) ∧
      doc.mobileNumber = some "254712345678".toList := by
  obtain ⟨pre, d, doc, -, -, -, -, h1, h2, -⟩ := mobileNumber_stored
    ⟨"24807965".toList, "+254712345678".toList, "Edward".toList, "John".toList, []⟩ 100 1 []
    (by decide) (by decide)
  refine ⟨doc, h1, ?_⟩
  rw [h2]
  decide

/-- C26: the two clients implement the same check-in apart from the mobile field. For
every mobile form whose mobileNumber passes the mobile check, `validateForm` of `App.js`
gives what `validateForm` of `gateman-app.jsx` gives on the same idNumber, firstName,
lastName and carPlate (so one accepts if and only if the other does), the two check-ins end
the same way, and on success the record the mobile client inserts is the record the web
client inserts with the field mobileNumber added. -/
theorem mobile_checkIn_refines_web (formData : Mobile.FormData) (now : Timestamp)
    (newId : DocId) (store : Store) (hmobile : IsMobileNumber formData.mobileNumber) :
    Mobile.validateForm formData = Web.validateForm formData.toWeb ∧
    (Mobile.validateForm formData = none ↔ Web.validateForm formData.toWeb = none) ∧
    (Mobile.handleCheckIn formData now newId store).1 =
      (Web.handleCheckIn formData.toWeb now newId store).1 ∧
    ((Web.handleCheckIn formData.toWeb now newId store).1 = CheckInResult.success →
      ∃ doc : VisitRecord,
        (Web.handleCheckIn formData.toWeb now newId store).2 = addDoc doc store ∧
        (Mobile.handleCheckIn formData now newId store).2 =
          addDoc { doc with
            mobileNumber := some (replaceCountryCode formData.mobileNumber) } store) ∧
    ((Web.handleCheckIn formData.toWeb now newId store).1 ≠ CheckInResult.success →
      (Web.handleCheckIn formData.toWeb now newId store).2 = store ∧
      (Mobile.handleCheckIn formData now newId store).2 = store) := by
  have hv := mobile_validateForm_eq_web formData hmobile
  refine ⟨hv, by rw [hv], ?_, ?_, ?_⟩
  · unfold Mobile.handleCheckIn Web.handleCheckIn
    rw [hv]
    cases Web.validateForm formData.toWeb with
    | some e => rfl
    | none =>
      show (if _ then _ else _ : CheckInResult × Store).1 = (if _ then _ else _ :
        CheckInResult × Store).1
      have : formData.toWeb.idNumber = formData.idNumber := rfl
      rw [this]
      split_ifs <;> rfl
  · unfold Mobile.handleCheckIn Web.handleCheckIn
    rw [hv]
    cases Web.validateForm formData.toWeb with
    | some e =>
      intro h
      exact absurd h (by simp)
    | none =>
      have : formData.toWeb.idNumber = formData.idNumber := rfl
      simp only [this]
      split_ifs with hq
      · intro h
        exact absurd h (by simp)
      · intro _
        exact ⟨Web.newDoc formData.toWeb now newId, rfl, rfl⟩
  · unfold Mobile.handleCheckIn Web.handleCheckIn
    rw [hv]
    cases Web.validateForm formData.toWeb with
    | some e =>
      intro _
      exact ⟨rfl, rfl⟩
    | none =>
      have : formData.toWeb.idNumber = formData.idNumber := rfl
      simp only [this]
      split_ifs with hq
      · intro _
        exact ⟨rfl, rfl⟩
      · intro h
        exact absurd rfl h

/-- Witness of C26: the form of the scenario with the mobile number `0712345678`. -/
theorem mobile_checkIn_refines_web_witness :
    Mobile.validateForm ⟨"24807965".toList, "0712345678".toList, "Edward".toList,
      "John".toList, "KBM243T".toList⟩ =
    Web.validateForm (Mobile.FormData.toWeb ⟨"24807965".toList, "0712345678".toList,
      "Edward".toList, "John".toList, "KBM243T".toList⟩) :=
  (mobile_checkIn_refines_web
    ⟨"24807965".toList, "0712345678".toList, "Edward".toList, "John".toList,
      "KBM243T".toList⟩ 100 1 []
    ((mobileNumberRegex_test_iff _).1 (by decide))).1

/-- Counterexample to C27 as stated: from one millisecond before the latest valid date
back to the earliest the difference is d = -17279999999999999 ms, whose remainder by 3600000
with the sign of d is r = -3599999, with r / 60000 rounded down = -60, but the code, which
computes the difference on doubles, prints `-4800000000h 0m`. -/
theorem formatDuration_extreme_dates_negative :
    IsDate 8639999999999999 ∧ IsDate (-8640000000000000) ∧
    (-8640000000000000 : Int) < 8639999999999999 ∧
    formatDuration (some 8639999999999999) (some (-8640000000000000)) =
      "-4800000000h 0m".toList ∧
    Int.tmod ((-8640000000000000 : Int) - 8639999999999999) 3600000 = -3599999 ∧
    Int.tmod ((-8640000000000000 : Int) - 8639999999999999) 3600000 / 60000 = -60 ∧
    formatDuration (some 8639999999999999) (some (-8640000000000000)) ≠
      numberToString (((-8640000000000000 : Int) - 8639999999999999) / 3600000) ++
        "h ".toList ++
        numberToString
          (Int.tmod ((-8640000000000000 : Int) - 8639999999999999) 3600000 / 60000) ++
        "m".toList := by
  have h := formatDuration_some 8639999999999999 (-8640000000000000)
    ⟨by decide, by decide⟩ ⟨by decide, by decide⟩
  refine ⟨⟨by decide, by decide⟩, ⟨by decide, by decide⟩, by decide, ?_, by decide, by decide,
    ?_⟩
  · rw [h]
    decide
  · rw [h]
    decide

/-- C27, amended: for all present timestamps, valid dates with timeOut < timeIn,
`formatDuration` does not return the placeholder: d < 0 being the difference
timeOut - timeIn as the code computes it on doubles (the exact difference in milliseconds
whenever its magnitude is at most 2 ^ 53, otherwise the double nearest to it), it renders
H = d / 3600000 rounded down, H < 0, and M = r / 60000 rounded down, where r is the
remainder of d by 3600000 that takes the sign of d, so that -60 ≤ M ≤ 0; d = -1 renders
`-1h -1m`. -/
theorem formatDuration_negative (tIn tOut : Int) (hIn : IsDate tIn) (hOut : IsDate tOut)
    (hlt : tOut < tIn) :
    formatDuration (some tIn) (some tOut) ≠ "-".toList ∧
    ∃ d H M r : Int,
      d = nearestDouble (tOut - tIn) ∧
      (tIn - tOut ≤ 2 ^ 53 → d = tOut - tIn) ∧
      d < 0 ∧
      formatDuration (some tIn) (some tOut) =
        numberToString H ++ "h ".toList ++ numberToString M ++ "m".toList ∧
      H = d / 3600000 ∧
      r = Int.tmod d 3600000 ∧
      r = -((-d) % 3600000) ∧
      M = r / 60000 ∧
      H < 0 ∧ -60 ≤ M ∧ M ≤ 0 := by
  have hd : tOut - tIn < 0 := Int.sub_neg_of_lt hlt
  have hrange : -17280000000000000 ≤ tOut - tIn ∧ tOut - tIn ≤ 17280000000000000 := by
    obtain ⟨h1, h2⟩ := hIn
    obtain ⟨h3, h4⟩ := hOut
    constructor <;> omega
  obtain ⟨-, -, hneg, hexact⟩ := nearestDouble_facts (tOut - tIn) hrange
  have hD := hneg hd
  have hr := tmod_of_neg (nearestDouble (tOut - tIn)) hD
  obtain ⟨h1, h2, h3⟩ := neg_hours_minutes (nearestDouble (tOut - tIn)) hD
  have hfmt := formatDuration_some tIn tOut hIn hOut
  refine ⟨?_, nearestDouble (tOut - tIn), nearestDouble (tOut - tIn) / 3600000,
    Int.tmod (nearestDouble (tOut - tIn)) 3600000 / 60000,
    Int.tmod (nearestDouble (tOut - tIn)) 3600000, rfl, ?_, hD, hfmt, rfl, rfl, hr, rfl, h1,
    ?_, ?_⟩
  · rw [hfmt]
    exact append_m_ne_placeholder _
  · intro hsmall
    apply hexact
    have : (2 : Int) ^ 53 = 9007199254740992 := by norm_num
    constructor <;> omega
  · rw [hr]
    exact h2
  · rw [hr]
    exact h3

/-- Witness of C27, amended: a timeOut one millisecond before the timeIn renders
`-1h -1m`. -/
theorem formatDuration_negative_witness :
    formatDuration (some 1) (some 0) = "-1h -1m".toList := by
  obtain ⟨-, d, H, M, r, hd, -, -, h, hH, hr, -, hM, -⟩ :=
    formatDuration_negative 1 0 ⟨by decide, by decide⟩ ⟨by decide, by decide⟩ (by decide)
  rw [h, hM, hr, hH, hd]
  decide

end Gate
